import Mathlib

/-!
Verification of the `wirlwind` telemetry data plane against its
natural-language specification.

The definitions below are shallow embeddings of the Python source under
`src/wirlwind_telemetry/`:

* `parser_chain.py` — `_sanitize_cli_output`, `_coerce_types`, `_meta`,
  `TemplateResolver`, `ParserChain.parse`;
* `state_store.py` — `DeviceStateStore.update / record_error / get /
  get_metadata / snapshot`;
* `drivers/__init__.py` — `_default_shape_output`, `_compute_memory_pct`,
  `_first_numeric`;
* `poll_engine.py` — search-path construction in `PollEngine.__init__`
  and the per-collection body of `PollEngine._poll_cycle`.

Python machine floats are modelled as exact rationals (`ℚ`); the numeric
results proved here are far from any binary-rounding boundary, so the
rational and IEEE-754 computations agree at the precision the statements
use.  Python strings are modelled as Lean `String`, with the string
operations the source uses (`strip`, `splitlines`, `in`, `endswith`,
indexing) embedded as `List Char` functions; this matches CPython for
`\n`-separated ASCII text, which is the only text the modelled code
manipulates.
-/

set_option maxRecDepth 4000

namespace Wirlwind

/-! ### Python string primitives -/

/-- The characters Python `str.strip()` removes. -/
def pyWs (c : Char) : Bool :=
  c = ' ' || c = '\t' || c = '\n' || c = '\r' ||
  c = '\x0b' || c = '\x0c'

/-- Python `str.strip()`. -/
def pyStrip (s : String) : String :=
  ⟨((s.toList.dropWhile pyWs).reverse.dropWhile pyWs).reverse⟩

/-- Python `needle in hay` substring test (`"" in s` is `True`). -/
def pyIn (needle hay : String) : Bool :=
  decide (needle.toList <:+: hay.toList)

/-- Python `hay.endswith(needle)`. -/
def pyEndsWith (hay needle : String) : Bool :=
  decide (needle.toList <:+ hay.toList)

/-- Python `s[-1]` (only ever used on nonempty strings). -/
def lastChar (s : String) : Char := s.toList.getLastD ' '

/-- Python `s[0]` (only ever used on nonempty strings). -/
def firstChar (s : String) : Char := s.toList.headD ' '

/-- Split a character list at every `\n`. -/
def linesAux : List Char → List Char → List (List Char)
  | [], acc => [acc.reverse]
  | '\n' :: rest, acc => acc.reverse :: linesAux rest []
  | c :: rest, acc => linesAux rest (c :: acc)

/-- Python `str.splitlines()` restricted to `\n` separators: split on
`\n`, with no trailing empty piece when the string ends in `\n`. -/
def splitlines (s : String) : List String :=
  if s = "" then []
  else
    let parts := (linesAux s.toList []).map (fun l => String.mk l)
    if parts.getLast? = some "" then parts.dropLast else parts

/-- Python `'\n'.join(lines)`. -/
def joinLines : List String → String
  | [] => ""
  | [l] => l
  | l :: rest => l ++ "\n" ++ joinLines rest

example : splitlines "a\nb\n" = ["a", "b"] := by decide
example : splitlines "a\n\n" = ["a", ""] := by decide
example : splitlines "" = [] := by decide
example : splitlines "\n" = [""] := by decide
example : joinLines ["a", "b"] = "a\nb" := by decide
example : pyStrip "  a b\t\n" = "a b" := by decide
example : pyIn "" "x" = true := by decide
example : pyIn "bc" "abcd" = true := by decide

/-! ### Exact rationals for Python floats

Mathlib's `ℚ` numerals do not reduce inside the kernel, so concrete
evaluation (`decide`) needs a small self-contained rational type.  All
operations normalize (positive denominator, coprime), so structural
equality is value equality for anything the operations produce. -/

structure PRat where
  num : Int
  den : Nat
  deriving DecidableEq

namespace PRat

/-- Normalize `n / d` (callers keep `d ≠ 0`). -/
def mk' (n : Int) (d : Nat) : PRat :=
  let g := n.natAbs.gcd d
  if g = 0 then ⟨0, 1⟩ else ⟨n / g, d / g⟩

def ofNat (n : Nat) : PRat := ⟨n, 1⟩

instance (n : Nat) : OfNat PRat n := ⟨ofNat n⟩

def add (x y : PRat) : PRat := mk' (x.num * y.den + y.num * x.den) (x.den * y.den)
def neg (x : PRat) : PRat := ⟨-x.num, x.den⟩
def sub (x y : PRat) : PRat := add x (neg y)
def mul (x y : PRat) : PRat := mk' (x.num * y.num) (x.den * y.den)
def inv (x : PRat) : PRat :=
  if x.num = 0 then ⟨0, 1⟩
  else if 0 ≤ x.num then ⟨x.den, x.num.natAbs⟩ else ⟨-x.den, x.num.natAbs⟩
def div (x y : PRat) : PRat := mul x (inv y)
def pow (x : PRat) (k : Nat) : PRat := ⟨x.num ^ k, x.den ^ k⟩

instance : Add PRat := ⟨add⟩
instance : Neg PRat := ⟨neg⟩
instance : Sub PRat := ⟨sub⟩
instance : Mul PRat := ⟨mul⟩
instance : Div PRat := ⟨div⟩
instance : HPow PRat Nat PRat := ⟨pow⟩

/-- `10^e` for an integer exponent. -/
def pow10 (e : Int) : PRat :=
  if 0 ≤ e then ⟨(10 : Int) ^ e.toNat, 1⟩ else ⟨1, 10 ^ (-e).toNat⟩

def le (x y : PRat) : Bool := decide (x.num * y.den ≤ y.num * x.den)
def lt (x y : PRat) : Bool := decide (x.num * y.den < y.num * x.den)

instance : LE PRat := ⟨fun x y => le x y = true⟩
instance : LT PRat := ⟨fun x y => lt x y = true⟩
instance (x y : PRat) : Decidable (x ≤ y) :=
  inferInstanceAs (Decidable (le x y = true))
instance (x y : PRat) : Decidable (x < y) :=
  inferInstanceAs (Decidable (lt x y = true))

def abs (x : PRat) : PRat := ⟨x.num.natAbs, x.den⟩

/-- `⌊x⌋` (floor division of a rational with positive denominator). -/
def floor (x : PRat) : Int := Int.fdiv x.num x.den

/-- `⌈x⌉`. -/
def ceil (x : PRat) : Int := -Int.fdiv (-x.num) x.den

example : ((25 : PRat) / 2) = ⟨25, 2⟩ := by decide
example : ((1 : PRat) / 2 + 1 / 2) = 1 := by decide
example : floor ((5 : PRat) / 2) = 2 := by decide
example : ceil ((-5 : PRat) / 2) = -2 := by decide

end PRat

/-! ### The Python value domain

Dictionaries keep Python's insertion order, so they are association
lists; floats are exact rationals. -/

inductive PyVal where
  | none
  | bool (b : Bool)
  | int (n : Int)
  | float (q : PRat)
  | str (s : String)
  | list (xs : List PyVal)
  | dict (entries : List (String × PyVal))

mutual

def pyValDecEq : (a b : PyVal) → Decidable (a = b)
  | .none, .none => .isTrue rfl
  | .bool x, .bool y =>
    if h : x = y then .isTrue (by rw [h]) else .isFalse (by simp [h])
  | .int x, .int y =>
    if h : x = y then .isTrue (by rw [h]) else .isFalse (by simp [h])
  | .float x, .float y =>
    if h : x = y then .isTrue (by rw [h]) else .isFalse (by simp [h])
  | .str x, .str y =>
    if h : x = y then .isTrue (by rw [h]) else .isFalse (by simp [h])
  | .list xs, .list ys =>
    match pyListDecEq xs ys with
    | .isTrue h => .isTrue (by rw [h])
    | .isFalse h => .isFalse (by simp [h])
  | .dict xs, .dict ys =>
    match pyDictDecEq xs ys with
    | .isTrue h => .isTrue (by rw [h])
    | .isFalse h => .isFalse (by simp [h])
  | .none, .bool _ => .isFalse (by simp)
  | .none, .int _ => .isFalse (by simp)
  | .none, .float _ => .isFalse (by simp)
  | .none, .str _ => .isFalse (by simp)
  | .none, .list _ => .isFalse (by simp)
  | .none, .dict _ => .isFalse (by simp)
  | .bool _, .none => .isFalse (by simp)
  | .bool _, .int _ => .isFalse (by simp)
  | .bool _, .float _ => .isFalse (by simp)
  | .bool _, .str _ => .isFalse (by simp)
  | .bool _, .list _ => .isFalse (by simp)
  | .bool _, .dict _ => .isFalse (by simp)
  | .int _, .none => .isFalse (by simp)
  | .int _, .bool _ => .isFalse (by simp)
  | .int _, .float _ => .isFalse (by simp)
  | .int _, .str _ => .isFalse (by simp)
  | .int _, .list _ => .isFalse (by simp)
  | .int _, .dict _ => .isFalse (by simp)
  | .float _, .none => .isFalse (by simp)
  | .float _, .bool _ => .isFalse (by simp)
  | .float _, .int _ => .isFalse (by simp)
  | .float _, .str _ => .isFalse (by simp)
  | .float _, .list _ => .isFalse (by simp)
  | .float _, .dict _ => .isFalse (by simp)
  | .str _, .none => .isFalse (by simp)
  | .str _, .bool _ => .isFalse (by simp)
  | .str _, .int _ => .isFalse (by simp)
  | .str _, .float _ => .isFalse (by simp)
  | .str _, .list _ => .isFalse (by simp)
  | .str _, .dict _ => .isFalse (by simp)
  | .list _, .none => .isFalse (by simp)
  | .list _, .bool _ => .isFalse (by simp)
  | .list _, .int _ => .isFalse (by simp)
  | .list _, .float _ => .isFalse (by simp)
  | .list _, .str _ => .isFalse (by simp)
  | .list _, .dict _ => .isFalse (by simp)
  | .dict _, .none => .isFalse (by simp)
  | .dict _, .bool _ => .isFalse (by simp)
  | .dict _, .int _ => .isFalse (by simp)
  | .dict _, .float _ => .isFalse (by simp)
  | .dict _, .str _ => .isFalse (by simp)
  | .dict _, .list _ => .isFalse (by simp)

def pyListDecEq : (a b : List PyVal) → Decidable (a = b)
  | [], [] => .isTrue rfl
  | [], _ :: _ => .isFalse (by simp)
  | _ :: _, [] => .isFalse (by simp)
  | x :: xs, y :: ys =>
    match pyValDecEq x y, pyListDecEq xs ys with
    | .isTrue h1, .isTrue h2 => .isTrue (by rw [h1, h2])
    | .isFalse h1, _ => .isFalse (by simp [h1])
    | _, .isFalse h2 => .isFalse (by simp [h2])

def pyDictDecEq : (a b : List (String × PyVal)) → Decidable (a = b)
  | [], [] => .isTrue rfl
  | [], _ :: _ => .isFalse (by simp)
  | _ :: _, [] => .isFalse (by simp)
  | (k1, v1) :: xs, (k2, v2) :: ys =>
    if hk : k1 = k2 then
      match pyValDecEq v1 v2, pyDictDecEq xs ys with
      | .isTrue h1, .isTrue h2 => .isTrue (by rw [hk, h1, h2])
      | .isFalse h1, _ => .isFalse (by simp [h1])
      | _, .isFalse h2 => .isFalse (by simp [h2])
    else .isFalse (by simp [hk])

end

instance : DecidableEq PyVal := pyValDecEq
instance : DecidableEq (List PyVal) := pyListDecEq
instance : DecidableEq (List (String × PyVal)) := pyDictDecEq

instance {ε α : Type} [DecidableEq ε] [DecidableEq α] :
    DecidableEq (Except ε α) := fun a b =>
  match a, b with
  | .ok x, .ok y =>
    if h : x = y then .isTrue (by rw [h]) else .isFalse (by simp [h])
  | .error x, .error y =>
    if h : x = y then .isTrue (by rw [h]) else .isFalse (by simp [h])
  | .ok _, .error _ => .isFalse (by simp)
  | .error _, .ok _ => .isFalse (by simp)

/-- Python dict lookup `d.get(k)` on an insertion-ordered dict
(association list; dict keys are unique, so first match is the match). -/
def alistGet {α : Type} (d : List (String × α)) (k : String) : Option α :=
  (d.find? (fun e => e.1 = k)).map (·.2)

/-- Python `d[k] = v`: overwrite in place if the key exists (keeping its
position), otherwise append at the end. -/
def alistSet {α : Type} : List (String × α) → String → α → List (String × α)
  | [], k, v => [(k, v)]
  | e :: rest, k, v =>
    if e.1 = k then (k, v) :: rest else e :: alistSet rest k v

def dictGet (d : List (String × PyVal)) (k : String) : Option PyVal :=
  alistGet d k

/-- Python `d.get(k, default)`. -/
def dictGetD (d : List (String × PyVal)) (k : String) (v : PyVal) : PyVal :=
  (dictGet d k).getD v

def dictSet (d : List (String × PyVal)) (k : String) (v : PyVal) :
    List (String × PyVal) :=
  alistSet d k v

lemma alistGet_set_self {α : Type} (l : List (String × α)) (k : String)
    (v : α) : alistGet (alistSet l k v) k = some v := by
  induction l with
  | nil => simp [alistSet, alistGet]
  | cons e t ih =>
    by_cases he : e.1 = k
    · simp [alistSet, he, alistGet]
    · simp only [alistSet, if_neg he]
      simpa [alistGet, he] using ih

lemma alistGet_set_ne {α : Type} (l : List (String × α)) (k k' : String)
    (v : α) (h : k' ≠ k) : alistGet (alistSet l k' v) k = alistGet l k := by
  induction l with
  | nil => simp [alistSet, alistGet, h]
  | cons e t ih =>
    by_cases he : e.1 = k'
    · simp [alistSet, he, alistGet, h, Ne.symm h]
    · simp only [alistSet, if_neg he]
      by_cases hek : e.1 = k
      · simp [alistGet, hek]
      · simpa [alistGet, hek] using ih

lemma alistSet_ne_nil {α : Type} (l : List (String × α)) (k : String)
    (v : α) : alistSet l k v ≠ [] := by
  cases l with
  | nil => simp [alistSet]
  | cons e t =>
    by_cases he : e.1 = k <;> simp [alistSet, he]

/-- Python truthiness for the values that reach `if x:` checks in the
modelled code. -/
def pyTruthy : PyVal → Bool
  | .none => false
  | .bool b => b
  | .int n => n != 0
  | .float q => q != 0
  | .str s => s ≠ ""
  | .list xs => !xs.isEmpty
  | .dict d => !d.isEmpty

/-! ### CLI-output sanitizer (`parser_chain._sanitize_cli_output`)

The source strips (1) at most one command-echo line among the first
three lines, (2) trailing blank lines, and (3) at most one trailing
prompt-looking line, then rejoins with `\n`.  The trace argument only
logs and is omitted. -/

/-- The prompt characters tested by `last[-1] in ('#', '>', '$', '%', ')')`. -/
def promptChars : List Char := ['#', '>', '$', '%', ')']

/-- Index of the echo line: the first `i < min 3 (length lines)` whose
stripped line is nonempty and equals / ends with / contains the stripped
command (the `continue` on blank lines and the `break` on a match). -/
def echoIdx (cmd : String) (lines : List String) : Option Nat :=
  (List.range (min 3 lines.length)).find? (fun i =>
    let line := pyStrip (lines.getD i "")
    decide (line ≠ "") &&
      (decide (line = cmd) || pyEndsWith line cmd || pyIn cmd line))

/-- `lines = lines[i + 1:]` after the echo match, if any. -/
def stripEcho (cmd : String) (lines : List String) : List String :=
  match echoIdx cmd lines with
  | some i => lines.drop (i + 1)
  | Option.none => lines

/-- The `while lines and not lines[-1].strip(): lines.pop()` loop. -/
def dropTrailingBlank (lines : List String) : List String :=
  (lines.reverse.dropWhile (fun l => pyStrip l = "")).reverse

/-- The trailing-prompt test: stripped line shorter than 60 chars,
nonempty, ending in a prompt char, not starting with a digit. -/
def isPromptish (l : String) : Bool :=
  let last := pyStrip l
  decide (last.length < 60) && decide (last ≠ "") &&
    promptChars.contains (lastChar last) && !(firstChar last).isDigit

/-- Pop one trailing prompt-looking line. -/
def stripPromptLine (lines : List String) : List String :=
  match lines.getLast? with
  | some l => if isPromptish l then lines.dropLast else lines
  | Option.none => lines

/-- `parser_chain._sanitize_cli_output(raw, command)`.  `command = none`
models Python `command=None`; the `if command and lines:` guard makes an
empty command string skip echo stripping. -/
def sanitizeCliOutput (raw : String) (command : Option String) : String :=
  if raw = "" then raw
  else
    let lines := splitlines raw
    let lines :=
      match command with
      | some c =>
        if c ≠ "" ∧ lines ≠ [] then stripEcho (pyStrip c) lines else lines
      | Option.none => lines
    let lines := dropTrailingBlank lines
    let lines := stripPromptLine lines
    joinLines lines

example : sanitizeCliOutput "show ver\ndata\nrouter#\n" (some "show ver")
    = "data" := by decide
example : sanitizeCliOutput "" (some "x") = "" := by decide

/-- A sanitizer output is *stable* when a second pass finds nothing to
strip: rejoining its lines reproduces it, no echo match remains within
the first three lines, and there is no trailing blank or prompt-looking
line. -/
def SanitizeStable (s : String) (command : Option String) : Prop :=
  joinLines (splitlines s) = s ∧
  (∀ c, command = some c → c ≠ "" → echoIdx (pyStrip c) (splitlines s) = Option.none) ∧
  dropTrailingBlank (splitlines s) = splitlines s ∧
  stripPromptLine (splitlines s) = splitlines s

instance (s : String) (command : Option String) :
    Decidable (SanitizeStable s command) := by
  unfold SanitizeStable
  have : Decidable
      (∀ c, command = some c → c ≠ "" →
        echoIdx (pyStrip c) (splitlines s) = Option.none) := by
    cases command with
    | none => exact .isTrue (by simp)
    | some c =>
      by_cases hc : c = ""
      · exact .isTrue (by simp [hc])
      · by_cases he : echoIdx (pyStrip c) (splitlines s) = Option.none
        · exact .isTrue (by intro d hd _; cases hd; exact he)
        · exact .isFalse (fun h => he (h c rfl hc))
  infer_instance

/-- Stable strings are fixed points of the sanitizer. -/
lemma sanitize_fixed {s : String} {command : Option String}
    (h : SanitizeStable s command) : sanitizeCliOutput s command = s := by
  obtain ⟨hjoin, hecho, hblank, hprompt⟩ := h
  unfold sanitizeCliOutput
  by_cases hs : s = ""
  · simp [hs]
  · simp only [hs, if_neg hs]
    cases command with
    | none => rw [hblank, hprompt, hjoin]; simp
    | some c =>
      by_cases hc : c ≠ "" ∧ splitlines s ≠ []
      · simp only [if_pos hc]
        unfold stripEcho
        rw [hecho c rfl hc.1, hblank, hprompt, hjoin]; simp
      · simp only [if_neg hc]
        rw [hblank, hprompt, hjoin]; simp

/-- C7 counterexample: the sanitizer is not idempotent.  When the first
two lines both echo the command, the first pass strips only the first
one (it breaks at the first match), and the second pass strips the
next, so `sanitize (sanitize x cmd) cmd ≠ sanitize x cmd`. -/
theorem C7_sanitize_not_idempotent_cex :
    sanitizeCliOutput
        (sanitizeCliOutput "show ver\nshow ver\ndata" (some "show ver"))
        (some "show ver")
      ≠ sanitizeCliOutput "show ver\nshow ver\ndata" (some "show ver") := by
  decide

/-- C7 (amended): the sanitizer is idempotent on inputs whose first
pass leaves nothing more to strip — when `sanitize(x, cmd)` has no
residual command echo among its first three lines and no trailing blank
or prompt-looking line (and rejoining its lines reproduces it), then
`sanitize(sanitize(x, cmd), cmd) = sanitize(x, cmd)`.  In general a
second pass can strip a further echo or prompt line. -/
theorem C7_sanitize_idempotent_on_stable (x : String) (cmd : Option String)
    (h : SanitizeStable (sanitizeCliOutput x cmd) cmd) :
    sanitizeCliOutput (sanitizeCliOutput x cmd) cmd
      = sanitizeCliOutput x cmd :=
  sanitize_fixed h

/-- Witness for `C7_sanitize_idempotent_on_stable` at a concrete input. -/
theorem C7_sanitize_idempotent_on_stable_witness :
    SanitizeStable (sanitizeCliOutput "show ver\ndata" (some "show ver"))
        (some "show ver") ∧
      sanitizeCliOutput
          (sanitizeCliOutput "show ver\ndata" (some "show ver"))
          (some "show ver")
        = sanitizeCliOutput "show ver\ndata" (some "show ver") :=
  ⟨by decide, C7_sanitize_idempotent_on_stable "show ver\ndata"
    (some "show ver") (by decide)⟩

example : dictGet [("a", .int 1)] "a" = some (.int 1) := by decide
example : dictSet [("a", .int 1), ("b", .int 2)] "a" (.int 9)
    = [("a", .int 9), ("b", .int 2)] := by decide
example : dictSet [("a", .int 1)] "c" (.int 9)
    = [("a", .int 1), ("c", .int 9)] := by decide

/-- A parsed row: an insertion-ordered mapping field name → value. -/
abbrev Row := List (String × PyVal)

/-! ### Python numeric conversion

`float(s)` on finite decimal literals, modelled exactly on `ℚ`.  Forms
outside this model (`inf`/`nan` literals, underscore separators) are
handled as follows: the non-finite forms are detected separately by
`floatOverflows` where their effect is observable (the `int()` branch of
type coercion raises `OverflowError` on them), and are otherwise treated
as unparsable; no statement proved below depends on them except through
`floatOverflows`.  CPython rounds `float(s)` to binary before `int()`
truncates; the rational model truncates the exact value, which agrees
for decimals of ≤ 15 significant digits (all values appearing here). -/

/-- Value of a digit string. -/
def digitsVal (l : List Char) : ℕ :=
  l.foldl (fun a c => a * 10 + (c.toNat - '0'.toNat)) 0

/-- `float(s)` on a stripped character list: optional sign, digits with
an optional fractional part (at least one digit overall), optional
exponent. -/
def pyFloatCore (l0 : List Char) : Option PRat :=
  let sl : PRat × List Char :=
    match l0 with
    | '+' :: rest => (1, rest)
    | '-' :: rest => (-1, rest)
    | _ => (1, l0)
  let sign := sl.1
  let l := sl.2
  let ip := l.takeWhile Char.isDigit
  let l1 := l.dropWhile Char.isDigit
  let fl : List Char × List Char :=
    match l1 with
    | '.' :: rest => (rest.takeWhile Char.isDigit, rest.dropWhile Char.isDigit)
    | _ => ([], l1)
  let fp := fl.1
  let l2 := fl.2
  if ip = [] ∧ fp = [] then Option.none
  else
    let mant : PRat := sign * (PRat.ofNat (digitsVal ip) + PRat.ofNat (digitsVal fp) / 10 ^ fp.length)
    match l2 with
    | [] => some mant
    | c :: rest =>
      if c = 'e' ∨ c = 'E' then
        let er : Int × List Char :=
          match rest with
          | '+' :: r => (1, r)
          | '-' :: r => (-1, r)
          | _ => (1, rest)
        let ed := er.2.takeWhile Char.isDigit
        let rest2 := er.2.dropWhile Char.isDigit
        if ed = [] ∨ rest2 ≠ [] then Option.none
        else some (mant * PRat.pow10 (er.1 * (digitsVal ed : Int)))
      else Option.none

/-- `float(s)`: strip surrounding whitespace, then parse. -/
def pyFloat (s : String) : Option PRat := pyFloatCore (pyStrip s).toList

example : pyFloat "12.5" = some (25 / 2) := by decide
example : pyFloat " -3e2 " = some (-300) := by decide
example : pyFloat "1234" = some 1234 := by decide
example : pyFloat "5%" = Option.none := by decide
example : pyFloat "" = Option.none := by decide

/-- `int()` truncation toward zero of a Python float. -/
def ratTrunc (q : PRat) : Int := if (0 : PRat) ≤ q then q.floor else q.ceil

/-- `s.replace(",", "")`. -/
def stripCommas (s : String) : String := ⟨s.toList.filter (· ≠ ',')⟩

/-- `s.lower()` (ASCII). -/
def pyLower (s : String) : String := ⟨s.toList.map Char.toLower⟩

/-- Decimal rendering of a rational whose value is a finite decimal
(Python `str(float)` for the plain-format range); nondecadic rationals
are outside the image of Python floats and get a placeholder. -/
def qStr (q : PRat) : String :=
  match (List.range 40).find? (fun k => (q * 10 ^ k).den = 1) with
  | some 0 => (if q < (0 : PRat) then "-" else "") ++ toString q.num.natAbs ++ ".0"
  | some k =>
    let n := (q * 10 ^ k).num.natAbs
    let ds0 := (toString n).toList
    let ds := if ds0.length ≤ k then List.replicate (k + 1 - ds0.length) '0' ++ ds0 else ds0
    (if q < (0 : PRat) then "-" else "") ++
      String.mk (ds.take (ds.length - k)) ++ "." ++ String.mk (ds.drop (ds.length - k))
  | Option.none => "<nondecadic>"

example : qStr 65 = "65.0" := by decide
example : qStr (1 / 2) = "0.5" := by decide
example : qStr (-25 / 2) = "-12.5" := by decide

/-- Python `str(value)`.  Exact for the types that reach the numeric
coercion path (strings, ints, bools, `None`); floats use the decimal
rendering above; containers get placeholders — `float(str(container))`
fails in CPython exactly as `pyFloat` fails on the placeholder, so all
coercion results below are unaffected. -/
def pyStr : PyVal → String
  | .none => "None"
  | .bool b => if b then "True" else "False"
  | .int n => toString n
  | .float q => qStr q
  | .str s => s
  | .list _ => "[...]"
  | .dict _ => "<dict>"

/-! ### Type coercion (`parser_chain._coerce_types`)

Schema shape: `fields: { name: { type: int|float|bool|str, … } }`.
A field spec is itself a string-valued dict; `field_spec.get("type",
"str")` supplies the default.  The `int` branch is
`int(float(str(value).replace(",", "")))` — note: commas are stripped
but **percent signs are not** — and the surrounding
`except (ValueError, TypeError)` does *not* catch the `OverflowError`
that `int()` raises when `float()` produced an infinity, so that one
case propagates out of the parser chain; it is modelled by the
`Except.error` branch. -/

abbrev FieldSpec := List (String × String)
abbrev Fields := List (String × FieldSpec)

/-- `field_spec.get("type", "str")`. -/
def specType (fs : FieldSpec) : String :=
  ((fs.find? (fun e => e.1 = "type")).map (·.2)).getD "str"

/-- `fields.get(key)`. -/
def fieldsGet (fields : Fields) (k : String) : Option FieldSpec :=
  ((fields.find? (fun e => e.1 = k)).map (·.2))

/-- `2 ^ 1024` (the IEEE-754 double overflow threshold), computed by
repeated squaring so kernel reduction stays shallow. -/
def twoPow1024 : Int := ((2 : Int) ^ (32 : Nat)) ^ (32 : Nat)

/-- Does `float(s)` yield an infinity in CPython: an `inf`/`infinity`
literal (optionally signed, case-insensitive), or a finite decimal whose
magnitude reaches the IEEE-754 double overflow threshold. -/
def floatOverflows (s : String) : Bool :=
  let l := (pyLower (pyStrip s)).toList
  let body :=
    match l with
    | '+' :: rest => rest
    | '-' :: rest => rest
    | _ => l
  body = "inf".toList || body = "infinity".toList ||
    (match pyFloatCore (pyStrip s).toList with
     | some q => PRat.le ⟨twoPow1024, 1⟩ q.abs
     | Option.none => false)

/-- One field's coercion: the body of the `for key, value` loop in
`_coerce_types`.  Returns `Except.error` exactly where CPython raises an
uncaught `OverflowError`. -/
def coerceField (fields : Fields) (k : String) (v : PyVal) :
    Except String PyVal :=
  match fieldsGet fields k with
  | Option.none => .ok v
  | some fs =>
    if fs ≠ [] ∧ v ≠ .none then
      let t := specType fs
      if t = "int" then
        let s := stripCommas (pyStr v)
        if floatOverflows s then
          .error "OverflowError: cannot convert float infinity to integer"
        else
          match pyFloat s with
          | some q => .ok (.int (ratTrunc q))
          | Option.none => .ok v
      else if t = "float" then
        match pyFloat (stripCommas (pyStr v)) with
        | some q => .ok (.float q)
        | Option.none => .ok v
      else if t = "bool" then
        .ok (.bool (decide (pyLower (pyStr v) ∈ ["true", "1", "yes"])))
      else
        .ok (if pyTruthy v then .str (pyStr v) else .str "")
    else .ok v

/-- One row: `new_row` is rebuilt key by key (dict assignment). -/
def coerceRow (fields : Fields) (row : Row) : Except String Row :=
  row.foldlM (fun acc kv => do
    let v' ← coerceField fields kv.1 kv.2
    pure (dictSet acc kv.1 v')) []

/-- `_coerce_types(rows, schema)`: `schema` falsy, or `fields` falsy,
returns the rows unchanged. -/
def coerceTypes (rows : List Row) (schema : Option Fields) :
    Except String (List Row) :=
  match schema with
  | Option.none => .ok rows
  | some fields =>
    if fields.isEmpty then .ok rows
    else rows.mapM (coerceRow fields)

example :
    coerceTypes [[("total", .str "409,190,504")]]
        (some [("total", [("type", "int")])])
      = .ok [[("total", .int 409190504)]] := by decide
example :
    coerceTypes [[("x", .str "inf")]] (some [("x", [("type", "int")])])
      = .error "OverflowError: cannot convert float infinity to integer" := by
  decide

/-- C2 counterexample: percent signs are **not** stripped before numeric
conversion.  A declared-`float` field holding `"12.5%"` is retained as
the original string (conversion fails), not coerced to `12.5` as the
claim's percent-stripping would produce. -/
theorem C2_percent_not_stripped_cex :
    coerceTypes [[("util", .str "12.5%")]]
        (some [("util", [("type", "float")])])
      = .ok [[("util", .str "12.5%")]] ∧
    (PyVal.str "12.5%" ≠ .float (25 / 2)) := by
  constructor
  · decide
  · decide

/-- C2 (amended): for a field declared `int` or `float`, coercion strips
commas (only — not percent signs) from `str(value)` before converting,
and whenever it returns without raising, the value is either the
numeric conversion of that comma-stripped string or the original value
unchanged — never silently zeroed. -/
theorem C2_coerce_comma_or_original (fields : Fields) (k : String)
    (v v' : PyVal) (fs : FieldSpec)
    (hf : fieldsGet fields k = some fs)
    (ht : specType fs = "int" ∨ specType fs = "float")
    (hok : coerceField fields k v = .ok v') :
    v' = v ∨
      ∃ q, pyFloat (stripCommas (pyStr v)) = some q ∧
        (v' = .int (ratTrunc q) ∨ v' = .float q) := by
  unfold coerceField at hok
  rw [hf] at hok
  dsimp only at hok
  by_cases hg : fs ≠ [] ∧ v ≠ PyVal.none
  · rw [if_pos hg] at hok
    rcases ht with ht | ht
    · rw [ht, if_pos rfl] at hok
      by_cases hov : floatOverflows (stripCommas (pyStr v)) = true
      · rw [if_pos hov] at hok
        cases hok
      · rw [if_neg hov] at hok
        cases hq : pyFloat (stripCommas (pyStr v)) with
        | none => rw [hq] at hok; left; cases hok; rfl
        | some q =>
          rw [hq] at hok
          right
          exact ⟨q, rfl, Or.inl (by cases hok; rfl)⟩
    · rw [ht, if_neg (by decide : ¬("float" : String) = "int"),
        if_pos rfl] at hok
      cases hq : pyFloat (stripCommas (pyStr v)) with
      | none => rw [hq] at hok; left; cases hok; rfl
      | some q =>
        rw [hq] at hok
        right
        exact ⟨q, rfl, Or.inr (by cases hok; rfl)⟩
  · rw [if_neg hg] at hok
    left; cases hok; rfl

/-- Witness for `C2_coerce_comma_or_original`: the comma-stripped
conversion branch at `"1,234"` in an `int` field. -/
theorem C2_coerce_comma_or_original_witness :
    ((fieldsGet [("qty", [("type", "int")])] "qty"
        = some [("type", "int")]) ∧
      coerceField [("qty", [("type", "int")])] "qty" (.str "1,234")
        = .ok (.int 1234)) ∧
    ((PyVal.int 1234 : PyVal) = .str "1,234" ∨
      ∃ q, pyFloat (stripCommas (pyStr (.str "1,234"))) = some q ∧
        ((PyVal.int 1234 : PyVal) = .int (ratTrunc q) ∨
          (PyVal.int 1234 : PyVal) = .float q)) :=
  ⟨⟨by decide, by decide⟩,
    C2_coerce_comma_or_original [("qty", [("type", "int")])] "qty"
      (.str "1,234") (.int 1234) [("type", "int")] (by decide)
      (Or.inl (by decide)) (by decide)⟩
example : dictSet [("a", .int 1), ("b", .int 2)] "a" (.int 9)
    = [("a", .int 9), ("b", .int 2)] := by decide
example : dictSet [("a", .int 1)] "c" (.int 9)
    = [("a", .int 1), ("c", .int 9)] := by decide

/-! ### State store (`state_store.DeviceStateStore`), value level

`update`, `record_error`, `get`, `get_metadata` never let the caller
mutate stored structure (they `deepcopy` on the way out), so for
value-equality claims (C4, C5) the store is modelled at the level of
values; `deepcopy` is the identity there.  Aliasing (claim C3) is
handled separately with an explicit heap model below.  Wall-clock reads
(`datetime.now().isoformat()`, `time.time()`) are passed in as
parameters. -/

/-- A collection payload: a Python dict. -/
abbrev Payload := List (String × PyVal)

structure DeviceStateStore where
  state : List (String × Payload)
  metadata : List (String × Payload)
  history : List (String × List PyVal)
  deviceInfo : Payload
  historyMax : Nat

namespace DeviceStateStore

/-- `_extract_headline(collection, data)`. -/
def extractHeadline (collection : String) (data : Payload) : Payload :=
  if collection = "cpu" then
    [("five_min", dictGetD data "five_min" (.int 0)),
     ("one_min", dictGetD data "one_min" (.int 0)),
     ("five_sec", dictGetD data "five_sec_total" (.int 0))]
  else if collection = "memory" then
    [("used_pct", dictGetD data "used_pct" (.int 0))]
  else []

/-- `update(collection, data)`: replace the payload, stamp metadata
`{last_updated, timestamp, success: True}`, and for `cpu`/`memory`
append a `{timestamp, data: headline}` sample to the history ring,
trimming to the last `_history_max` entries. -/
def update (st : DeviceStateStore) (collection : String) (data : Payload)
    (nowIso : String) (ts : PRat) : DeviceStateStore :=
  let st1 : DeviceStateStore :=
    { st with
      state := alistSet st.state collection data
      metadata := alistSet st.metadata collection
        [("last_updated", .str nowIso), ("timestamp", .float ts),
         ("success", .bool true)] }
  if collection = "cpu" ∨ collection = "memory" then
    let hist := (alistGet st1.history collection).getD []
    let hist := hist ++
      [PyVal.dict [("timestamp", .float ts),
                   ("data", .dict (extractHeadline collection data))]]
    let hist :=
      if st1.historyMax < hist.length then
        hist.drop (hist.length - st1.historyMax)
      else hist
    { st1 with history := alistSet st1.history collection hist }
  else st1

/-- `record_error(collection, error)`: metadata-only mutation via
`setdefault` and three key assignments. -/
def recordError (st : DeviceStateStore) (collection error nowIso : String) :
    DeviceStateStore :=
  let md := (alistGet st.metadata collection).getD []
  let md := dictSet md "last_error" (.str error)
  let md := dictSet md "last_error_time" (.str nowIso)
  let md := dictSet md "success" (.bool false)
  { st with metadata := alistSet st.metadata collection md }

/-- `get(collection)`: `deepcopy(data) if data else None` — a missing
*or falsy* (empty) payload comes back as `None`. -/
def get (st : DeviceStateStore) (collection : String) : Option Payload :=
  match alistGet st.state collection with
  | Option.none => Option.none
  | some d => if pyTruthy (.dict d) then some d else Option.none

/-- `get_metadata(collection)`, same falsy-to-`None` shape. -/
def getMetadata (st : DeviceStateStore) (collection : String) :
    Option Payload :=
  match alistGet st.metadata collection with
  | Option.none => Option.none
  | some d => if pyTruthy (.dict d) then some d else Option.none

end DeviceStateStore

/-- The store a fresh engine starts from. -/
def emptyStore : DeviceStateStore :=
  { state := [], metadata := [], history := [], deviceInfo := [],
    historyMax := 360 }

/-- C4 counterexample: for the empty payload dict `{}` the claim fails —
`get` returns `deepcopy(data) if data else None`, and `{}` is falsy, so
after `update(c, {})` the store returns `None`, not a payload deep-equal
to `{}`. -/
theorem C4_update_get_empty_payload_cex :
    (emptyStore.update "interfaces" [] "2026-01-01T00:00:00+00:00" 100).get
        "interfaces" = Option.none ∧
      (emptyStore.update "interfaces" [] "2026-01-01T00:00:00+00:00" 100).get
        "interfaces" ≠ some ([] : Payload) := by
  constructor
  · decide
  · decide

/-- C4 (amended): for every collection name and every **nonempty**
payload dict `d`, after `update(c, d)` the store's `get(c)` returns a
payload deep-equal to `d`, and `get_metadata(c).success == True`. -/
theorem C4_update_get_roundtrip (st : DeviceStateStore) (c : String)
    (d : Payload) (nowIso : String) (ts : PRat) (hd : d ≠ []) :
    (st.update c d nowIso ts).get c = some d ∧
      ∃ md, (st.update c d nowIso ts).getMetadata c = some md ∧
        dictGet md "success" = some (.bool true) := by
  have hstate : (st.update c d nowIso ts).state = alistSet st.state c d := by
    unfold DeviceStateStore.update
    by_cases hc : c = "cpu" ∨ c = "memory" <;> simp [hc]
  have hmeta : (st.update c d nowIso ts).metadata
      = alistSet st.metadata c
        [("last_updated", .str nowIso), ("timestamp", .float ts),
         ("success", .bool true)] := by
    unfold DeviceStateStore.update
    by_cases hc : c = "cpu" ∨ c = "memory" <;> simp [hc]
  refine ⟨?_, ?_⟩
  · unfold DeviceStateStore.get
    rw [hstate, alistGet_set_self]
    simp [pyTruthy, hd]
  · refine ⟨[("last_updated", .str nowIso), ("timestamp", .float ts),
      ("success", .bool true)], ?_, by rfl⟩
    unfold DeviceStateStore.getMetadata
    rw [hmeta, alistGet_set_self]
    rfl

/-- Witness for `C4_update_get_roundtrip` at a concrete store. -/
theorem C4_update_get_roundtrip_witness :
    (([("total", PyVal.int 1)] : Payload) ≠ []) ∧
      ((emptyStore.update "memory" [("total", .int 1)] "t0" 5).get "memory"
          = some [("total", .int 1)] ∧
        ∃ md,
          (emptyStore.update "memory" [("total", .int 1)] "t0" 5).getMetadata
              "memory" = some md ∧
            dictGet md "success" = some (.bool true)) :=
  ⟨by decide, C4_update_get_roundtrip emptyStore "memory"
    [("total", .int 1)] "t0" 5 (by decide)⟩

/-- The metadata dict written by `record_error`: reads back
`success == False` and `last_error == m`, and is nonempty. -/
lemma recordError_md_facts (md0 : Payload) (m nowIso : String) :
    alistGet (alistSet (alistSet (alistSet md0 "last_error" (.str m))
        "last_error_time" (.str nowIso)) "success" (.bool false))
        "success" = some (.bool false) ∧
      alistGet (alistSet (alistSet (alistSet md0 "last_error" (.str m))
        "last_error_time" (.str nowIso)) "success" (.bool false))
        "last_error" = some (.str m) ∧
      alistSet (alistSet (alistSet md0 "last_error" (.str m))
        "last_error_time" (.str nowIso)) "success" (.bool false) ≠ [] := by
  have h1 : ("success" : String) ≠ "last_error" := by decide
  have h2 : ("last_error_time" : String) ≠ "last_error" := by decide
  refine ⟨alistGet_set_self _ _ _, ?_, alistSet_ne_nil _ _ _⟩
  rw [alistGet_set_ne _ _ _ _ h1, alistGet_set_ne _ _ _ _ h2]
  exact alistGet_set_self _ _ _

/-- C5: `record_error(c, m)` leaves `get` of every collection unchanged
(the last successful payload is never overwritten), mutates only the
metadata field of the store, and afterwards `get_metadata(c)` reports
`success == False` and `last_error == m`. -/
theorem C5_record_error_preserves_data (st : DeviceStateStore)
    (c m nowIso : String) :
    (∀ c2, (st.recordError c m nowIso).get c2 = st.get c2) ∧
      (st.recordError c m nowIso).state = st.state ∧
      (st.recordError c m nowIso).history = st.history ∧
      (st.recordError c m nowIso).deviceInfo = st.deviceInfo ∧
      ∃ md, (st.recordError c m nowIso).getMetadata c = some md ∧
        dictGet md "success" = some (.bool false) ∧
        dictGet md "last_error" = some (.str m) := by
  obtain ⟨hsucc, herr, hnil⟩ :=
    recordError_md_facts ((alistGet st.metadata c).getD []) m nowIso
  refine ⟨fun c2 => rfl, rfl, rfl, rfl,
    ⟨alistSet (alistSet (alistSet ((alistGet st.metadata c).getD [])
        "last_error" (.str m)) "last_error_time" (.str nowIso))
        "success" (.bool false), ?_, hsucc, herr⟩⟩
  unfold DeviceStateStore.recordError DeviceStateStore.getMetadata
  dsimp only
  rw [show dictSet (dictSet (dictSet ((alistGet st.metadata c).getD [])
        "last_error" (.str m)) "last_error_time" (.str nowIso))
        "success" (.bool false)
      = alistSet (alistSet (alistSet ((alistGet st.metadata c).getD [])
        "last_error" (.str m)) "last_error_time" (.str nowIso))
        "success" (.bool false) from rfl]
  rw [alistGet_set_self]
  cases hmd : alistSet (alistSet (alistSet ((alistGet st.metadata c).getD [])
      "last_error" (.str m)) "last_error_time" (.str nowIso))
      "success" (.bool false) with
  | nil => exact absurd hmd hnil
  | cons e t => simp [pyTruthy]

/-! ### Driver output shaping (`drivers._default_shape_output`)

No vendor driver overrides `shape_output`, so the base implementation
is the behavior of every driver. -/

/-- `COLLECTION_LIST_KEYS`. -/
def collectionListKeys : List (String × String) :=
  [("interfaces", "interfaces"), ("interface_detail", "interfaces"),
   ("bgp_summary", "peers"), ("neighbors", "neighbors"),
   ("log", "entries"), ("environment", "sensors")]

/-- `_default_shape_output(collection, rows)`. -/
def defaultShapeOutput (collection : String) (rows : List Row) : Payload :=
  if rows.isEmpty then []
  else if collection = "cpu" ∨ collection = "memory" ∨
      collection = "device_info" then
    let result := rows.headD []
    if collection = "cpu" ∧ 1 < rows.length then
      dictSet result "processes" (.list ((rows.drop 1).map PyVal.dict))
    else result
  else
    match alistGet collectionListKeys collection with
    | some key => [(key, .list (rows.map PyVal.dict))]
    | Option.none => [("data", .list (rows.map PyVal.dict))]

/-- The spec's shaping rules, written from the spec text: empty rows →
`{}`; singleton collections flatten the first row, `cpu` keeps extra
rows as `processes`; the named list collections wrap under their
canonical key; anything else wraps under `data`. -/
def shapeOutputSpec (collection : String) (rows : List Row) : Payload :=
  match rows with
  | [] => []
  | first :: rest =>
    if collection = "cpu" then
      if rest.isEmpty then first
      else dictSet first "processes" (.list (rest.map PyVal.dict))
    else if collection = "memory" ∨ collection = "device_info" then first
    else
      let key : Option String :=
        if collection = "interfaces" ∨ collection = "interface_detail" then
          some "interfaces"
        else if collection = "bgp_summary" then some "peers"
        else if collection = "neighbors" then some "neighbors"
        else if collection = "log" then some "entries"
        else if collection = "environment" then some "sensors"
        else Option.none
      match key with
      | some k => [(k, .list ((first :: rest).map PyVal.dict))]
      | Option.none => [("data", .list ((first :: rest).map PyVal.dict))]

/-- C9: for every collection name and row list, the driver's
`shape_output` follows the spec's shaping rules: `{}` on empty rows;
first-row flattening for `cpu`/`memory`/`device_info` with extra rows
becoming `processes` for `cpu` only; canonical-key wrapping for the
known list collections; `data` wrapping otherwise. -/
theorem C9_shape_output_follows_rules (collection : String)
    (rows : List Row) :
    defaultShapeOutput collection rows = shapeOutputSpec collection rows := by
  cases rows with
  | nil => rfl
  | cons first rest =>
    by_cases hcpu : collection = "cpu"
    · subst hcpu
      cases rest with
      | nil => simp [defaultShapeOutput, shapeOutputSpec]
      | cons r2 t2 =>
        simp [defaultShapeOutput, shapeOutputSpec, Nat.lt_add_of_pos_left]
    · by_cases hmem : collection = "memory"
      · subst hmem; simp [defaultShapeOutput, shapeOutputSpec]
      · by_cases hdev : collection = "device_info"
        · subst hdev; simp [defaultShapeOutput, shapeOutputSpec]
        · have hsingle :
            ¬(collection = "cpu" ∨ collection = "memory" ∨
              collection = "device_info") := by
            simp [hcpu, hmem, hdev]
          by_cases h1 : collection = "interfaces"
          · subst h1; simp [defaultShapeOutput, shapeOutputSpec, alistGet, collectionListKeys, List.find?]
          · by_cases h2 : collection = "interface_detail"
            · subst h2; simp [defaultShapeOutput, shapeOutputSpec, alistGet, collectionListKeys, List.find?]
            · by_cases h3 : collection = "bgp_summary"
              · subst h3
                simp [defaultShapeOutput, shapeOutputSpec, alistGet, collectionListKeys, List.find?]
              · by_cases h4 : collection = "neighbors"
                · subst h4
                  simp [defaultShapeOutput, shapeOutputSpec, alistGet, collectionListKeys, List.find?]
                · by_cases h5 : collection = "log"
                  · subst h5
                    simp [defaultShapeOutput, shapeOutputSpec, alistGet, collectionListKeys, List.find?]
                  · by_cases h6 : collection = "environment"
                    · subst h6
                      simp [defaultShapeOutput, shapeOutputSpec, alistGet, collectionListKeys, List.find?]
                    · have h1' : ¬"interfaces" = collection :=
                        fun h => h1 h.symm
                      have h2' : ¬"interface_detail" = collection :=
                        fun h => h2 h.symm
                      have h3' : ¬"bgp_summary" = collection :=
                        fun h => h3 h.symm
                      have h4' : ¬"neighbors" = collection :=
                        fun h => h4 h.symm
                      have h5' : ¬"log" = collection :=
                        fun h => h5 h.symm
                      have h6' : ¬"environment" = collection :=
                        fun h => h6 h.symm
                      simp [defaultShapeOutput, shapeOutputSpec, alistGet,
                        collectionListKeys, List.find?, hcpu, hmem, hdev,
                        h1, h2, h3, h4, h5, h6,
                        h1', h2', h3', h4', h5', h6']

/-! ### Memory post-processing (`drivers._compute_memory_pct`)

`CiscoIOSDriver.post_process("memory", data)` is exactly
`_compute_memory_pct(data)`.  Python's `round(x, 1)` and `f"{x:.1f}"`
round half-to-even on the decimal; the values here are far from ties,
so the exact-rational rounding below agrees with the float one. -/

/-- Round a rational to the nearest integer, ties to even. -/
def roundHalfEven (q : PRat) : Int :=
  let f := q.floor
  let r := q - ⟨f, 1⟩
  if r < (1 / 2 : PRat) then f
  else if (1 / 2 : PRat) < r then f + 1
  else if f % 2 = 0 then f else f + 1

/-- Python `round(q, 1)`. -/
def pyRound1 (q : PRat) : PRat := PRat.mk' (roundHalfEven (q * 10)) 10

/-- Python `f"{q:.1f}"`. -/
def fmt1 (q : PRat) : String :=
  let n := roundHalfEven (q * 10)
  let a := n.natAbs
  (if n < 0 then "-" else "") ++ toString (a / 10) ++ "." ++ toString (a % 10)

example : pyRound1 ⟨649686, 10000⟩ = ⟨65, 1⟩ := by decide
example : fmt1 ⟨39023, 100⟩ = "390.2" := by decide

/-- `_first_numeric(data, *keys)`: first key present with a non-`None`
value whose comma-stripped `str()` parses as a float. -/
def firstNumeric (data : Payload) : List String → Option PRat
  | [] => Option.none
  | k :: rest =>
    match dictGet data k with
    | some v =>
      if v = PyVal.none then firstNumeric data rest
      else
        match pyFloat (stripCommas (pyStr v)) with
        | some q => some q
        | Option.none => firstNumeric data rest
    | Option.none => firstNumeric data rest

/-- `_compute_memory_pct(data)`: find total/used/free across canonical
and raw aliases, derive `used` from `total - free` when absent, write
`used_pct = round(used/total*100, 1)` when `total > 0`, and add display
strings by magnitude (`> 1e9` → GB, `> 1e6` → MB, `> 1e3` → KB). -/
def computeMemoryPct (data : Payload) : Payload :=
  let total := firstNumeric data
    ["total_bytes", "total_kb", "total_mb", "total", "memory_total"]
  let used := firstNumeric data
    ["used_bytes", "used_kb", "used_mb", "used", "memory_used"]
  let free := firstNumeric data ["free_bytes", "free", "free_kb", "memory_free"]
  let used :=
    match total, free, used with
    | some t, some f, Option.none => some (t - f)
    | _, _, u => u
  match total, used with
  | some t, some u =>
    if (0 : PRat) < t then
      let data := dictSet data "used_pct" (.float (pyRound1 (u / t * 100)))
      if (1000000000 : PRat) < t then
        dictSet (dictSet data "total_display"
            (.str (fmt1 (t / (1024 ^ (3 : Nat))) ++ " GB")))
          "used_display" (.str (fmt1 (u / (1024 ^ (3 : Nat))) ++ " GB"))
      else if (1000000 : PRat) < t then
        dictSet (dictSet data "total_display"
            (.str (fmt1 (t / (1024 ^ (2 : Nat))) ++ " MB")))
          "used_display" (.str (fmt1 (u / (1024 ^ (2 : Nat))) ++ " MB"))
      else if (1000 : PRat) < t then
        dictSet (dictSet data "total_display"
            (.str (fmt1 (t / 1024) ++ " KB")))
          "used_display" (.str (fmt1 (u / 1024) ++ " KB"))
      else data
    else data
  | _, _ => data

/-- The S4 fixture row as it reaches memory post-processing: the regex
captures coerced to `int` by the memory `_schema.yaml`. -/
def s4MemoryRow : Payload :=
  [("total", .int 409190504), ("used", .int 265844792),
   ("free", .int 143345712)]

/-- C8 counterexample: on the S4 fixture the display is in **MB**, not
GB — `total = 409190504` bytes is below the `1_000_000_000` GB
threshold — so `total_display` is `"390.2 MB"`, which does not end in
`"GB"`; and the stored `used_pct` is `65.0`, because the code rounds to
one decimal, not `≈ 64.97`. -/
theorem C8_memory_s4_cex :
    dictGet (computeMemoryPct s4MemoryRow) "total_display"
        = some (.str "390.2 MB") ∧
      pyEndsWith "390.2 MB" "GB" = false ∧
      dictGet (computeMemoryPct s4MemoryRow) "used_pct"
        = some (.float ⟨65, 1⟩) := by
  refine ⟨by decide, by decide, by decide⟩

/-- C8 (amended): on the S4 fixture, memory post-processing keeps
`total == 409190504` and `used == 265844792`, the exact ratio
`used/total*100` is within `0.01` of `64.97`, the stored `used_pct` is
its one-decimal rounding `65.0`, and the display strings are
`"390.2 MB"` / `"253.5 MB"` (ending in MB, since total is below the
1 GB display threshold). -/
theorem C8_memory_s4_derivation :
    dictGet (computeMemoryPct s4MemoryRow) "total"
        = some (.int 409190504) ∧
      dictGet (computeMemoryPct s4MemoryRow) "used"
        = some (.int 265844792) ∧
      PRat.lt (PRat.abs ((265844792 : PRat) / 409190504 * 100
        - ⟨6497, 100⟩)) ⟨1, 100⟩ = true ∧
      dictGet (computeMemoryPct s4MemoryRow) "used_pct"
        = some (.float (pyRound1 ((265844792 : PRat) / 409190504 * 100))) ∧
      pyRound1 ((265844792 : PRat) / 409190504 * 100) = ⟨65, 1⟩ ∧
      dictGet (computeMemoryPct s4MemoryRow) "total_display"
        = some (.str "390.2 MB") ∧
      dictGet (computeMemoryPct s4MemoryRow) "used_display"
        = some (.str "253.5 MB") ∧
      pyEndsWith "390.2 MB" "MB" = true := by
  refine ⟨by decide, by decide, by decide, by decide, by decide,
    by decide, by decide, by decide⟩

/-! ### Parser chain (`parser_chain.ParserChain.parse`)

The chain's control flow is embedded exactly; the template engines and
the filesystem behind `_try_textfsm` / `_try_ttp` / `_parse_regex` are
oracles supplied as a `ParserBackends` record (each returns what the
corresponding helper returns: an optional row list plus a template name
or reason; the helpers themselves catch their exceptions).  The config
dict's `parsers` / `normalize` / `command` reads are passed as separate
arguments. -/

/-- `"; ".join(...)` and friends. -/
def joinSep (sep : String) : List String → String
  | [] => ""
  | [x] => x
  | x :: rest => x ++ sep ++ joinSep sep rest

/-- `_meta(parsed_by, template, error)`: `_error` is added only for a
truthy error string. -/
def pcMeta (p t : String) (err : Option String) : List (String × String) :=
  [("_parsed_by", p), ("_template", t)] ++
    (match err with
     | some e => if e ≠ "" then [("_error", e)] else []
     | Option.none => [])

/-- `_normalize(rows, normalize_map)`: invert canonical → parser-field
(later duplicates win, as in a Python dict comprehension) and rebuild
each row with dict assignment. -/
def normalizeRows (rows : List Row)
    (normMap : Option (List (String × String))) : List Row :=
  match normMap with
  | Option.none => rows
  | some m =>
    if m.isEmpty then rows
    else
      let remap := m.map (fun kv => (kv.2, kv.1))
      rows.map (fun row =>
        row.foldl (fun acc kv =>
          alistSet acc
            (((remap.reverse.find? (fun e => e.1 = kv.1)).map (·.2)).getD kv.1)
            kv.2) [])

/-- An inline-regex parser spec (`pattern` / `flags` / `groups`),
carried opaquely to the regex oracle. -/
structure RegexDef where
  pattern : String
  flags : String
  groups : List (String × Nat)
  deriving DecidableEq

/-- One entry of the descriptor's `parsers` list, discriminated on the
lowered `type` field. -/
inductive ParserDef where
  | textfsm (templates : List String)
  | ttp (templates : List String)
  | regex (cfg : RegexDef)
  | other (ptype : String)
  deriving DecidableEq

/-- The template engines and filesystem behind the chain's attempts.
`tryTextfsm`/`tryTtp` model `_try_textfsm`/`_try_ttp` (result rows or
`None`, plus the winning template name); `runRegex` models
`_parse_regex` (result rows or `None`, plus the failure reason). -/
structure ParserBackends where
  tryTextfsm : List String → String → Option (List Row) × String
  tryTtp : List String → String → Option (List Row) × String
  runRegex : RegexDef → String → Option (List Row) × String

/-- The `for parser_def in parsers:` loop of `ParserChain.parse`, with
the accumulated `errors` list. -/
def parseGo (env : ParserBackends) (normMap : Option (List (String × String)))
    (schema : Option Fields) (cleaned : String) :
    List ParserDef → List String →
      Except String (List Row × List (String × String))
  | [], errors =>
    let detail := if errors.isEmpty then "no parsers defined"
      else joinSep "; " errors
    .ok ([], pcMeta "none" "inline"
      (some ("all parsers failed (" ++ detail ++ ")")))
  | .textfsm tpls :: rest, errors =>
    match (env.tryTextfsm tpls cleaned).1 with
    | some result =>
      if result.isEmpty then
        parseGo env normMap schema cleaned rest (errors ++ ["textfsm: no match"])
      else do
        let result := normalizeRows result normMap
        let result ← coerceTypes result schema
        pure (result,
          pcMeta "textfsm" (env.tryTextfsm tpls cleaned).2 Option.none)
    | Option.none =>
      parseGo env normMap schema cleaned rest (errors ++ ["textfsm: no match"])
  | .ttp tpls :: rest, errors =>
    match (env.tryTtp tpls cleaned).1 with
    | some result =>
      if result.isEmpty then
        parseGo env normMap schema cleaned rest (errors ++ ["ttp: no match"])
      else do
        let result := normalizeRows result normMap
        let result ← coerceTypes result schema
        pure (result, pcMeta "ttp" (env.tryTtp tpls cleaned).2 Option.none)
    | Option.none =>
      parseGo env normMap schema cleaned rest (errors ++ ["ttp: no match"])
  | .regex cfg :: rest, errors =>
    match (env.runRegex cfg cleaned).1 with
    | some result =>
      if result.isEmpty then
        parseGo env normMap schema cleaned rest
          (errors ++ ["regex: " ++ (env.runRegex cfg cleaned).2])
      else do
        let result := normalizeRows result normMap
        let result ← coerceTypes result schema
        pure (result, pcMeta "regex" "inline" Option.none)
    | Option.none =>
      parseGo env normMap schema cleaned rest
        (errors ++ ["regex: " ++ (env.runRegex cfg cleaned).2])
  | .other t :: rest, errors =>
    parseGo env normMap schema cleaned rest
      (errors ++ ["unknown parser type: " ++ t])

/-- `ParserChain.parse(raw_output, collection_config, schema)`. -/
def parseChain (env : ParserBackends) (parsers : List ParserDef)
    (normMap : Option (List (String × String))) (command : Option String)
    (schema : Option Fields) (raw : String) :
    Except String (List Row × List (String × String)) :=
  if pyStrip raw = "" then
    .ok ([], pcMeta "none" "inline" (some "empty output"))
  else
    parseGo env normMap schema (sanitizeCliOutput raw command) parsers []

/-- Does this parser attempt come back falsy (`None` or an empty row
list) on the given cleaned text? -/
def attemptFails (env : ParserBackends) (cleaned : String) :
    ParserDef → Bool
  | .textfsm tpls =>
    match (env.tryTextfsm tpls cleaned).1 with
    | Option.none => true
    | some r => r.isEmpty
  | .ttp tpls =>
    match (env.tryTtp tpls cleaned).1 with
    | Option.none => true
    | some r => r.isEmpty
  | .regex cfg =>
    match (env.runRegex cfg cleaned).1 with
    | Option.none => true
    | some r => r.isEmpty
  | .other _ => true

lemma pcMeta_some_of_ne (p t e : String) (he : e ≠ "") :
    pcMeta p t (some e)
      = [("_parsed_by", p), ("_template", t), ("_error", e)] := by
  simp [pcMeta, he]

lemma pyIn_append_left (n a b : String) (h : pyIn n a = true) :
    pyIn n (a ++ b) = true := by
  unfold pyIn at h ⊢
  rw [decide_eq_true_eq] at h ⊢
  have : a.toList <+: (a ++ b).toList := by
    refine ⟨b.toList, ?_⟩
    simp [String.toList, String.data_append]
  exact h.trans this.isInfix

/-- When every parser in the chain fails, the loop returns `([], meta)`
with an `_error` of the form `all parsers failed (…)`. -/
lemma parseGo_all_fail (env : ParserBackends)
    (normMap : Option (List (String × String))) (schema : Option Fields)
    (cleaned : String) :
    ∀ (ps : List ParserDef) (errs : List String),
      (∀ p ∈ ps, attemptFails env cleaned p = true) →
      ∃ d, parseGo env normMap schema cleaned ps errs
        = .ok ([], pcMeta "none" "inline"
            (some ("all parsers failed (" ++ d ++ ")"))) := by
  intro ps
  induction ps with
  | nil =>
    intro errs _
    exact ⟨if errs.isEmpty then "no parsers defined" else joinSep "; " errs,
      rfl⟩
  | cons p rest ih =>
    intro errs hall
    have hp := hall p (by simp)
    have hrest : ∀ q ∈ rest, attemptFails env cleaned q = true :=
      fun q hq => hall q (by simp [hq])
    cases p with
    | textfsm tpls =>
      simp only [attemptFails] at hp
      unfold parseGo
      split
      · rename_i r heq
        rw [heq] at hp
        split
        · exact ih _ hrest
        · rename_i hfalse
          exact absurd hp hfalse
      · exact ih _ hrest
    | ttp tpls =>
      simp only [attemptFails] at hp
      unfold parseGo
      split
      · rename_i r heq
        rw [heq] at hp
        split
        · exact ih _ hrest
        · rename_i hfalse
          exact absurd hp hfalse
      · exact ih _ hrest
    | regex cfg =>
      simp only [attemptFails] at hp
      unfold parseGo
      split
      · rename_i r heq
        rw [heq] at hp
        split
        · exact ih _ hrest
        · rename_i hfalse
          exact absurd hp hfalse
      · exact ih _ hrest
    | other t =>
      unfold parseGo
      exact ih _ hrest

/-- C6 (amended): the chain returns `(rows, meta)` without raising
**except** when type coercion of a declared-`int` field receives a
value denoting an infinite float (then `int(float(·))` raises an
`OverflowError` that nothing in the chain catches).  Unconditionally:
empty or whitespace input returns `([], meta)` with
`_parsed_by == "none"` and `_error == "empty output"`, and when every
parser in the chain fails it returns `([], meta)` with
`_parsed_by == "none"` and an `_error` containing
`"all parsers failed"`. -/
theorem C6_parse_failure_outcomes (env : ParserBackends)
    (parsers : List ParserDef) (normMap : Option (List (String × String)))
    (command : Option String) (schema : Option Fields) (raw : String) :
    (pyStrip raw = "" →
      parseChain env parsers normMap command schema raw
        = .ok ([], [("_parsed_by", "none"), ("_template", "inline"),
            ("_error", "empty output")])) ∧
    (pyStrip raw ≠ "" →
      (∀ p ∈ parsers,
        attemptFails env (sanitizeCliOutput raw command) p = true) →
      ∃ e, parseChain env parsers normMap command schema raw
          = .ok ([], [("_parsed_by", "none"), ("_template", "inline"),
              ("_error", e)]) ∧
        pyIn "all parsers failed" e = true) := by
  constructor
  · intro h
    unfold parseChain
    rw [if_pos h]
    rfl
  · intro h hall
    obtain ⟨d, hd⟩ := parseGo_all_fail env normMap schema
      (sanitizeCliOutput raw command) parsers [] hall
    have hne : ("all parsers failed (" ++ d ++ ")") ≠ "" := by
      intro hcontra
      have h2 := congrArg String.length hcontra
      simp only [String.length_append] at h2
      rw [show (")" : String).length = 1 from rfl,
        show ("" : String).length = 0 from rfl] at h2
      omega
    refine ⟨"all parsers failed (" ++ d ++ ")", ?_, ?_⟩
    · unfold parseChain
      rw [if_neg h, hd, pcMeta_some_of_ne _ _ _ hne]
    · exact pyIn_append_left _ _ _
        (pyIn_append_left _ "all parsers failed (" d (by decide))

/-- A backends record on which every attempt fails. -/
def failBackends : ParserBackends :=
  { tryTextfsm := fun _ _ => (Option.none, "")
    tryTtp := fun _ _ => (Option.none, "")
    runRegex := fun _ _ => (Option.none, "0 matches for pattern") }

/-- Witness for `C6_parse_failure_outcomes` at concrete inputs: the
empty-input branch on `"  \n"` and the all-fail branch on garbage
text. -/
theorem C6_parse_failure_outcomes_witness :
    (parseChain failBackends [ParserDef.textfsm ["t.textfsm"]]
        Option.none Option.none Option.none "  \n"
      = .ok ([], [("_parsed_by", "none"), ("_template", "inline"),
          ("_error", "empty output")])) ∧
    ∃ e, parseChain failBackends [ParserDef.textfsm ["t.textfsm"]]
          Option.none Option.none Option.none
          "This is not CLI output at all\nJust random text\n"
        = .ok ([], [("_parsed_by", "none"), ("_template", "inline"),
            ("_error", e)]) ∧
      pyIn "all parsers failed" e = true :=
  ⟨(C6_parse_failure_outcomes failBackends [ParserDef.textfsm ["t.textfsm"]]
      Option.none Option.none Option.none "  \n").1 (by decide),
    (C6_parse_failure_outcomes failBackends [ParserDef.textfsm ["t.textfsm"]]
      Option.none Option.none Option.none
      "This is not CLI output at all\nJust random text\n").2
      (by decide) (by decide)⟩

/-- A backends record whose regex attempt captures the literal `inf`. -/
def infBackends : ParserBackends :=
  { tryTextfsm := fun _ _ => (Option.none, "")
    tryTtp := fun _ _ => (Option.none, "")
    runRegex := fun _ _ => (some [[("x", PyVal.str "inf")]], "") }

/-- C6 counterexample: `parse` is *not* raise-free.  A regex capture of
`"inf"` in a field the schema declares `int` reaches
`int(float("inf"))` in `_coerce_types`, which raises `OverflowError` —
a class the surrounding `except (ValueError, TypeError)` does not
catch — and nothing in `ParserChain.parse` handles it. -/
theorem C6_parse_raises_on_infinite_int_cex :
    parseChain infBackends
        [ParserDef.regex ⟨"(\\S+)", "", [("x", 1)]⟩]
        Option.none Option.none (some [("x", [("type", "int")])]) "inf"
      = .error "OverflowError: cannot convert float infinity to integer" := by
  decide

/-! ### Template resolution (`parser_chain.TemplateResolver` +
`PollEngine.__init__` search-path construction)

The filesystem is abstracted as a `TemplateFs` record: directory
existence, exact-child existence, the first hit of `base.rglob(name)`,
and the community (`ntc_templates`) package directory when installed.
Paths are plain strings; `base / name` is string concatenation with
`/`. -/

structure TemplateFs where
  pathExists : String → Bool
  childExists : String → String → Bool
  rglobFirst : String → String → Option String
  ntcPath : Option String

/-- The engine's bundled local-overrides directory
(`Path(__file__).parent / "templates" / "textfsm"`). -/
def localOverridesDir : String := "wirlwind_telemetry/templates/textfsm"

/-- `PollEngine.__init__` lines 97–102: start from the caller's
`template_search_paths` and *insert the bundled local overrides at
position 0* when the directory exists. -/
def engineSearchPaths (fs : TemplateFs) (callerPaths : List String) :
    List String :=
  if fs.pathExists localOverridesDir then localOverridesDir :: callerPaths
  else callerPaths

/-- `TemplateResolver.__init__`: keep the search paths that exist (in
order), then append the community package directory if found. -/
def resolverPaths (fs : TemplateFs) (searchPaths : List String) :
    List String :=
  searchPaths.filter fs.pathExists ++
    (match fs.ntcPath with
     | some p => [p]
     | Option.none => [])

/-- `TemplateResolver.resolve`: walk the paths in order; in each base,
an exact child match returns first, otherwise the first recursive
(`rglob`) match; else move to the next base. -/
def resolveFrom (fs : TemplateFs) (filename : String) :
    List String → Option String
  | [] => Option.none
  | base :: rest =>
    if fs.childExists base filename then some (base ++ "/" ++ filename)
    else
      match fs.rglobFirst base filename with
      | some m => some m
      | Option.none => resolveFrom fs filename rest

/-- The resolver as the poll engine constructs and uses it. -/
def engineResolve (fs : TemplateFs) (callerPaths : List String)
    (filename : String) : Option String :=
  resolveFrom fs filename (resolverPaths fs (engineSearchPaths fs callerPaths))

/-- First hit over an ordered directory list, written from the spec's
words: per directory, the exact child match wins over the recursive
search; the first directory with a hit wins overall. -/
def firstHit (fs : TemplateFs) (dirs : List String) (filename : String) :
    Option String :=
  dirs.findSome? (fun d =>
    if fs.childExists d filename then some (d ++ "/" ++ filename)
    else fs.rglobFirst d filename)

/-- The search order the claim asserts: caller-provided override
directories first, then the bundled local overrides, then the community
package. -/
def claimSearchOrder (fs : TemplateFs) (callerPaths : List String) :
    List String :=
  callerPaths.filter fs.pathExists ++
    (if fs.pathExists localOverridesDir then [localOverridesDir] else []) ++
    (match fs.ntcPath with
     | some p => [p]
     | Option.none => [])

/-- The search order the code implements: bundled local overrides
first, then the caller-provided directories, then the community
package. -/
def amendedSearchOrder (fs : TemplateFs) (callerPaths : List String) :
    List String :=
  (if fs.pathExists localOverridesDir then [localOverridesDir] else []) ++
    callerPaths.filter fs.pathExists ++
    (match fs.ntcPath with
     | some p => [p]
     | Option.none => [])

/-- A filesystem in which the template exists as an exact child of both
the caller's override directory and the bundled local overrides. -/
def cexFs : TemplateFs :=
  { pathExists := fun p => p = "custom" || p = localOverridesDir
    childExists := fun base name =>
      (base = "custom" || base = localOverridesDir) && name = "t.textfsm"
    rglobFirst := fun _ _ => Option.none
    ntcPath := Option.none }

/-- C1 counterexample: the claim's order (caller overrides first) is
not the code's.  With `t.textfsm` present in both the caller directory
and the bundled local overrides, the engine's resolver returns the
bundled local copy, while the claimed order would return the caller's
copy. -/
theorem C1_resolver_order_cex :
    engineResolve cexFs ["custom"] "t.textfsm"
        = some "wirlwind_telemetry/templates/textfsm/t.textfsm" ∧
      firstHit cexFs (claimSearchOrder cexFs ["custom"]) "t.textfsm"
        = some "custom/t.textfsm" ∧
      some "wirlwind_telemetry/templates/textfsm/t.textfsm"
        ≠ some "custom/t.textfsm" := by
  refine ⟨by decide, by decide, by decide⟩

lemma resolveFrom_eq_firstHit (fs : TemplateFs) (filename : String) :
    ∀ dirs : List String,
      resolveFrom fs filename dirs = firstHit fs dirs filename := by
  intro dirs
  induction dirs with
  | nil => rfl
  | cons base rest ih =>
    unfold resolveFrom firstHit
    by_cases hc : fs.childExists base filename = true
    · simp [hc, List.findSome?]
    · simp only [hc, if_false, Bool.false_eq_true, List.findSome?]
      cases hr : fs.rglobFirst base filename with
      | none =>
        simp [hr]
        simpa [firstHit] using ih
      | some m => simp [hr]

/-- C1 (amended): for every template name requested by a parser spec,
the resolver searches, in order, the **bundled local overrides
directory first**, then the caller-provided override directories, then
the community template package, and returns the first hit (exact child
match before recursive search within each directory). -/
theorem C1_resolver_search_order (fs : TemplateFs)
    (callerPaths : List String) (filename : String) :
    engineResolve fs callerPaths filename
      = firstHit fs (amendedSearchOrder fs callerPaths) filename := by
  rw [engineResolve, resolveFrom_eq_firstHit]
  congr 1
  unfold resolverPaths engineSearchPaths amendedSearchOrder
  by_cases hl : fs.pathExists localOverridesDir = true
  · simp [hl, List.filter]
  · simp [hl, List.filter]

/-! ### Poll engine scheduling (`PollEngine._poll_cycle`)

The per-collection body of `_poll_cycle` is embedded with its
SSH/parse/driver work abstracted to an outcome oracle: what the `try`
block produces for a collection this cycle — empty output, a parse
failure, an exception, or the final shaped-and-post-processed payload.
Times are exact rationals (`time.time()` floats); the same cycle
timestamp `now` is used for the store stamp and `_last_poll`, matching
the source up to the microseconds between two `time.time()` calls,
which no claim depends on. -/

/-- Conversion for storing an engine timestamp as a Python float. -/
def qToPRat (q : ℚ) : PRat := ⟨q.num, q.den⟩

/-- What one collection's `try` block yields this cycle. -/
inductive AttemptOutcome where
  | emptyOutput
  | parseFailed (err : String)
  | exceptionRaised (err : String)
  | success (data : Payload)

/-- The two config reads the scheduler makes:
`config.get("interval", …)` and `config.get("command")`. -/
structure CollectionCfg where
  interval : Option ℚ
  command : Option String

structure EngineState where
  lastPoll : List (String × ℚ)
  store : DeviceStateStore

/-- `DEFAULT_INTERVALS.get(collection, 60)`. -/
def defaultInterval (c : String) : ℚ :=
  if c = "cpu" then 30 else if c = "memory" then 30
  else if c = "interfaces" then 60 else if c = "interface_detail" then 60
  else if c = "bgp_summary" then 60 else if c = "neighbors" then 300
  else if c = "environment" then 120 else if c = "processes" then 30
  else if c = "log" then 30 else 60

/-- One iteration of the `for collection in self.collections:` loop:
skip when there is no config, when the interval has not elapsed (except
on cycle 1), or when the config has no command; otherwise record the
outcome — `record_error` on any failure, and on success
`state_store.update` followed by `self._last_poll[collection] = now`. -/
def pollOne (cfg : String → Option CollectionCfg)
    (outcome : String → AttemptOutcome) (now : ℚ) (nowIso : String)
    (cycle : Nat) (st : EngineState) (c : String) : EngineState :=
  match cfg c with
  | Option.none => st
  | some conf =>
    let interval := conf.interval.getD (defaultInterval c)
    let last := (alistGet st.lastPoll c).getD 0
    if now - last < interval ∧ 1 < cycle then st
    else
      match conf.command with
      | Option.none => st
      | some _ =>
        match outcome c with
        | .emptyOutput =>
          { st with store := st.store.recordError c "Empty command output" nowIso }
        | .parseFailed err =>
          { st with store := st.store.recordError c err nowIso }
        | .exceptionRaised err =>
          { st with store := st.store.recordError c err nowIso }
        | .success data =>
          { st with
            store := st.store.update c data nowIso (qToPRat now)
            lastPoll := alistSet st.lastPoll c now }

/-- `_poll_cycle`: the loop over `self.collections`. -/
def pollCycle (cfg : String → Option CollectionCfg)
    (outcome : String → AttemptOutcome) (now : ℚ) (nowIso : String)
    (cycle : Nat) (st : EngineState) (collections : List String) :
    EngineState :=
  collections.foldl (pollOne cfg outcome now nowIso cycle) st

/-- Any iteration that is not a successful attempt at `c` itself leaves
`_last_poll[c]` untouched. -/
lemma pollOne_lastPoll_frame (cfg : String → Option CollectionCfg)
    (outcome : String → AttemptOutcome) (now : ℚ) (nowIso : String)
    (cycle : Nat) (c : String) (hfail : ∀ v, outcome c ≠ .success v) :
    ∀ (st : EngineState) (d : String),
      alistGet (pollOne cfg outcome now nowIso cycle st d).lastPoll c
        = alistGet st.lastPoll c := by
  intro st d
  unfold pollOne
  cases cfg d with
  | none => rfl
  | some conf =>
    dsimp only
    split
    · rfl
    · cases conf.command with
      | none => rfl
      | some cmd =>
        dsimp only
        cases ho : outcome d with
        | emptyOutput => rfl
        | parseFailed err => rfl
        | exceptionRaised err => rfl
        | success data =>
          by_cases hdc : d = c
          · exact absurd (hdc ▸ ho) (hfail data)
          · exact alistGet_set_ne _ _ _ _ hdc

/-- C10: `_last_poll[c]` is written only by the success branch, right
after the state-store update — (1) an executed successful attempt sets
it to the cycle time and writes the payload through `store.update`;
(2) if the attempt at `c` does not succeed (empty output, parse
failure, or exception), the whole cycle leaves `_last_poll[c]`
unchanged; and (3) consequently a failing collection that was due this
cycle is still due at every later tick, regardless of its configured
interval. -/
theorem C10_last_poll_only_on_success
    (cfg : String → Option CollectionCfg) (outcome : String → AttemptOutcome)
    (now : ℚ) (nowIso : String) (cycle : Nat) (st : EngineState)
    (collections : List String) (c : String) :
    (∀ d conf, cfg c = some conf → outcome c = .success d →
      conf.command.isSome →
      ¬(now - (alistGet st.lastPoll c).getD 0
          < conf.interval.getD (defaultInterval c) ∧ 1 < cycle) →
      (pollOne cfg outcome now nowIso cycle st c).lastPoll
          = alistSet st.lastPoll c now ∧
        (pollOne cfg outcome now nowIso cycle st c).store
          = st.store.update c d nowIso (qToPRat now)) ∧
    ((∀ v, outcome c ≠ .success v) →
      alistGet (pollCycle cfg outcome now nowIso cycle st collections).lastPoll
          c
        = alistGet st.lastPoll c) ∧
    ((∀ v, outcome c ≠ .success v) →
      ∀ conf, cfg c = some conf →
      conf.interval.getD (defaultInterval c)
          ≤ now - (alistGet st.lastPoll c).getD 0 →
      ∀ now' : ℚ, now ≤ now' →
      conf.interval.getD (defaultInterval c)
        ≤ now' - (alistGet (pollCycle cfg outcome now nowIso cycle st
            collections).lastPoll c).getD 0) := by
  have hcycle : (∀ v, outcome c ≠ .success v) →
      alistGet (pollCycle cfg outcome now nowIso cycle st collections).lastPoll
          c
        = alistGet st.lastPoll c := by
    intro hfail
    unfold pollCycle
    induction collections generalizing st with
    | nil => rfl
    | cons d rest ih =>
      rw [List.foldl_cons, ih, pollOne_lastPoll_frame cfg outcome now nowIso
        cycle c hfail]
  refine ⟨?_, hcycle, ?_⟩
  · intro d conf hcfg ho hcmd hdue
    unfold pollOne
    rw [hcfg]
    dsimp only
    rw [if_neg hdue]
    obtain ⟨cmd, hc2⟩ := Option.isSome_iff_exists.mp hcmd
    rw [hc2, ho]
    exact ⟨rfl, rfl⟩
  · intro hfail conf _ hdue now' hle
    rw [hcycle hfail]
    have := sub_le_sub hle (le_refl ((alistGet st.lastPoll c).getD 0))
    linarith

/-- Concrete scheduler fixtures for the C10 witness. -/
def wCfg : String → Option CollectionCfg :=
  fun c => if c = "cpu" then some ⟨some 30, some "show processes cpu"⟩
    else Option.none

def wOutcomeOk : String → AttemptOutcome :=
  fun _ => .success [("five_sec_total", .int 1)]

def wOutcomeEmpty : String → AttemptOutcome := fun _ => .emptyOutput

/-- Witness for `C10_last_poll_only_on_success` at a concrete engine
state: a successful first-cycle poll records `last_poll = now` and the
store update; an empty-output cycle leaves `last_poll` unchanged and
the collection due at a later tick. -/
theorem C10_last_poll_only_on_success_witness :
    ((pollOne wCfg wOutcomeOk 100 "t0" 1 ⟨[], emptyStore⟩ "cpu").lastPoll
        = alistSet [] "cpu" 100 ∧
      (pollOne wCfg wOutcomeOk 100 "t0" 1 ⟨[], emptyStore⟩ "cpu").store
        = emptyStore.update "cpu" [("five_sec_total", .int 1)] "t0"
            (qToPRat 100)) ∧
    alistGet (pollCycle wCfg wOutcomeEmpty 100 "t0" 2 ⟨[], emptyStore⟩
        ["cpu"]).lastPoll "cpu"
      = alistGet ([] : List (String × ℚ)) "cpu" ∧
    (some (30 : ℚ)).getD (defaultInterval "cpu")
      ≤ 200 - (alistGet (pollCycle wCfg wOutcomeEmpty 100 "t0" 2
          ⟨[], emptyStore⟩ ["cpu"]).lastPoll "cpu").getD 0 := by
  have hfail : ∀ v, wOutcomeEmpty "cpu" ≠ AttemptOutcome.success v := by
    intro v h
    simp only [wOutcomeEmpty] at h
    exact AttemptOutcome.noConfusion h
  refine ⟨(C10_last_poll_only_on_success wCfg wOutcomeOk 100 "t0" 1
      ⟨[], emptyStore⟩ ["cpu"] "cpu").1 [("five_sec_total", .int 1)]
      ⟨some 30, some "show processes cpu"⟩ rfl rfl rfl (by simp),
    (C10_last_poll_only_on_success wCfg wOutcomeEmpty 100 "t0" 2
      ⟨[], emptyStore⟩ ["cpu"] "cpu").2.1 hfail,
    (C10_last_poll_only_on_success wCfg wOutcomeEmpty 100 "t0" 2
      ⟨[], emptyStore⟩ ["cpu"] "cpu").2.2 hfail
      ⟨some 30, some "show processes cpu"⟩ rfl
      (by norm_num [alistGet]) 200 (by norm_num)⟩

/-! ### Heap model for snapshot aliasing (`DeviceStateStore.snapshot`)

Claim C3 is about *mutation through aliases*, which the value-level
store model cannot express, so the store's object graph is modelled as
an explicit heap: addresses mapping to objects (immutable primitives,
lists of addresses, string-keyed dicts of addresses).  `copy.deepcopy`
allocates fresh addresses recursively; a Python list slice (`[-n:]`)
allocates a fresh list object that *shares its element addresses*.
The store's data is tree-shaped (parsed rows), so the model's
memo-free `deepcopy` agrees with Python's memoized one.  Recursion is
fuel-bounded; every statement proved supplies enough fuel. -/

abbrev Addr := Nat

inductive HObj where
  | prim (v : PyVal)
  | hlist (elems : List Addr)
  | hdict (entries : List (String × Addr))
  deriving DecidableEq

abbrev Heap := List (Addr × HObj)

/-- Read an address; the newest entry (first match) wins. -/
def heapGet (h : Heap) (a : Addr) : Option HObj :=
  (h.find? (fun e => e.1 = a)).map (·.2)

/-- Assign an object to an address (mutation or allocation). -/
def heapSet (h : Heap) (a : Addr) (o : HObj) : Heap := (a, o) :: h

structure HState where
  heap : Heap
  next : Addr

/-- Allocate a fresh address for an object. -/
def allocSt (st : HState) (o : HObj) : HState × Addr :=
  (⟨heapSet st.heap st.next o, st.next + 1⟩, st.next)

/-- The addresses an object refers to. -/
def objRefs : HObj → List Addr
  | .prim _ => []
  | .hlist es => es
  | .hdict kvs => kvs.map (·.2)

lemma heapGet_set_self (h : Heap) (a : Addr) (o : HObj) :
    heapGet (heapSet h a o) a = some o := by
  simp [heapGet, heapSet, List.find?]

lemma heapGet_set_ne (h : Heap) (a b : Addr) (o : HObj) (hab : a ≠ b) :
    heapGet (heapSet h b o) a = heapGet h a := by
  simp [heapGet, heapSet, List.find?, Ne.symm hab]

mutual

/-- Read out the pure value rooted at an address, to a fuel depth. -/
def valueOf (n : Nat) (h : Heap) (a : Addr) : Option PyVal :=
  match n with
  | 0 => Option.none
  | n + 1 =>
    match heapGet h a with
    | some (.prim v) => some v
    | some (.hlist es) => (valuesOf n h es).map PyVal.list
    | some (.hdict kvs) => (dvaluesOf n h kvs).map PyVal.dict
    | Option.none => Option.none
termination_by (n, 0)

/-- Values of a list of addresses. -/
def valuesOf (n : Nat) (h : Heap) (l : List Addr) : Option (List PyVal) :=
  match l with
  | [] => some []
  | e :: rest =>
    match valueOf n h e, valuesOf n h rest with
    | some v, some vs => some (v :: vs)
    | _, _ => Option.none
termination_by (n, l.length + 1)

/-- Values of dict entries. -/
def dvaluesOf (n : Nat) (h : Heap) (l : List (String × Addr)) :
    Option (List (String × PyVal)) :=
  match l with
  | [] => some []
  | kv :: rest =>
    match valueOf n h kv.2, dvaluesOf n h rest with
    | some v, some vs => some ((kv.1, v) :: vs)
    | _, _ => Option.none
termination_by (n, l.length + 1)

end

/-- Heaps that agree on every address below `N`. -/
def AgreeBelow (N : Addr) (h1 h2 : Heap) : Prop :=
  ∀ b, b < N → heapGet h1 b = heapGet h2 b

/-- Objects stored below `N` only refer below `N`. -/
def ClosedBelow (N : Addr) (h : Heap) : Prop :=
  ∀ a, a < N → ∀ o, heapGet h a = some o → ∀ b ∈ objRefs o, b < N

/-- All addresses and references are below `next`, so fresh
allocations never collide. -/
def WF (st : HState) : Prop :=
  ∀ a o, heapGet st.heap a = some o →
    a < st.next ∧ ∀ b ∈ objRefs o, b < st.next

lemma AgreeBelow.mono {N M : Addr} {h1 h2 : Heap} (h : AgreeBelow M h1 h2)
    (hnm : N ≤ M) : AgreeBelow N h1 h2 :=
  fun b hb => h b (lt_of_lt_of_le hb hnm)

lemma AgreeBelow.trans {N : Addr} {h1 h2 h3 : Heap}
    (h12 : AgreeBelow N h1 h2) (h23 : AgreeBelow N h2 h3) :
    AgreeBelow N h1 h3 :=
  fun b hb => (h12 b hb).trans (h23 b hb)

lemma WF.closedBelow {st : HState} (h : WF st) :
    ClosedBelow st.next st.heap :=
  fun _ _ o ho => (h _ o ho).2

@[simp] lemma valueOf_zero (h : Heap) (a : Addr) :
    valueOf 0 h a = Option.none := by rw [valueOf]

lemma valueOf_succ (n : Nat) (h : Heap) (a : Addr) :
    valueOf (n + 1) h a =
      match heapGet h a with
      | some (.prim v) => some v
      | some (.hlist es) => (valuesOf n h es).map PyVal.list
      | some (.hdict kvs) => (dvaluesOf n h kvs).map PyVal.dict
      | Option.none => Option.none := by rw [valueOf]

@[simp] lemma valuesOf_nil (n : Nat) (h : Heap) :
    valuesOf n h [] = some [] := by rw [valuesOf]

lemma valuesOf_cons (n : Nat) (h : Heap) (e : Addr) (rest : List Addr) :
    valuesOf n h (e :: rest) =
      match valueOf n h e, valuesOf n h rest with
      | some v, some vs => some (v :: vs)
      | _, _ => Option.none := by rw [valuesOf]

@[simp] lemma dvaluesOf_nil (n : Nat) (h : Heap) :
    dvaluesOf n h [] = some [] := by rw [dvaluesOf]

lemma dvaluesOf_cons (n : Nat) (h : Heap) (kv : String × Addr)
    (rest : List (String × Addr)) :
    dvaluesOf n h (kv :: rest) =
      match valueOf n h kv.2, dvaluesOf n h rest with
      | some v, some vs => some ((kv.1, v) :: vs)
      | _, _ => Option.none := by rw [dvaluesOf]

lemma valuesOf_congr_of {n : Nat} {N : Addr} {h1 h2 : Heap}
    (hone : ∀ a, a < N → valueOf n h1 a = valueOf n h2 a) :
    ∀ l : List Addr, (∀ b ∈ l, b < N) →
      valuesOf n h1 l = valuesOf n h2 l := by
  intro l
  induction l with
  | nil => intro _; simp
  | cons e rest ih =>
    intro hb
    rw [valuesOf_cons, valuesOf_cons, hone e (hb e (by simp)),
      ih (fun b hbm => hb b (by simp [hbm]))]

lemma dvaluesOf_congr_of {n : Nat} {N : Addr} {h1 h2 : Heap}
    (hone : ∀ a, a < N → valueOf n h1 a = valueOf n h2 a) :
    ∀ l : List (String × Addr), (∀ kv ∈ l, kv.2 < N) →
      dvaluesOf n h1 l = dvaluesOf n h2 l := by
  intro l
  induction l with
  | nil => intro _; simp
  | cons kv rest ih =>
    intro hb
    rw [dvaluesOf_cons, dvaluesOf_cons, hone kv.2 (hb kv (by simp)),
      ih (fun b hbm => hb b (by simp [hbm]))]

/-- Values read below `N` only depend on the heap below `N`. -/
lemma valueOf_agree : ∀ (n : Nat) (N : Addr) (h1 h2 : Heap),
    AgreeBelow N h1 h2 → ClosedBelow N h2 →
    ∀ a, a < N → valueOf n h1 a = valueOf n h2 a := by
  intro n
  induction n with
  | zero => intro N h1 h2 _ _ a _; simp
  | succ n ih =>
    intro N h1 h2 hag hcl a ha
    rw [valueOf_succ, valueOf_succ, hag a ha]
    cases ho : heapGet h2 a with
    | none => rfl
    | some o =>
      cases o with
      | prim v => rfl
      | hlist es =>
        have hrefs : ∀ b ∈ es, b < N := by
          have := hcl a ha _ ho
          simpa [objRefs] using this
        dsimp only
        rw [valuesOf_congr_of (fun b hb => ih N h1 h2 hag hcl b hb) es hrefs]
      | hdict kvs =>
        have hrefs : ∀ kv ∈ kvs, kv.2 < N := by
          intro kv hkv
          have := hcl a ha _ ho
          refine this kv.2 ?_
          simp only [objRefs, List.mem_map]
          exact ⟨kv, hkv, rfl⟩
        dsimp only
        rw [dvaluesOf_congr_of (fun b hb => ih N h1 h2 hag hcl b hb) kvs hrefs]

lemma valuesOf_mono_of {n : Nat} {h : Heap}
    (hone : ∀ a v, valueOf n h a = some v → valueOf (n + 1) h a = some v) :
    ∀ (l : List Addr) (vs : List PyVal),
      valuesOf n h l = some vs → valuesOf (n + 1) h l = some vs := by
  intro l
  induction l with
  | nil => intro vs hvs; simp at hvs; simp [hvs]
  | cons e rest ih =>
    intro vs hvs
    rw [valuesOf_cons] at hvs ⊢
    cases hv : valueOf n h e with
    | none => rw [hv] at hvs; cases hvs
    | some v =>
      rw [hv] at hvs
      cases hrest : valuesOf n h rest with
      | none => rw [hrest] at hvs; cases hvs
      | some vs2 =>
        rw [hrest] at hvs
        rw [hone e v hv, ih vs2 hrest]
        exact hvs

lemma dvaluesOf_mono_of {n : Nat} {h : Heap}
    (hone : ∀ a v, valueOf n h a = some v → valueOf (n + 1) h a = some v) :
    ∀ (l : List (String × Addr)) (vs : List (String × PyVal)),
      dvaluesOf n h l = some vs → dvaluesOf (n + 1) h l = some vs := by
  intro l
  induction l with
  | nil => intro vs hvs; simp at hvs; simp [hvs]
  | cons kv rest ih =>
    intro vs hvs
    rw [dvaluesOf_cons] at hvs ⊢
    cases hv : valueOf n h kv.2 with
    | none => rw [hv] at hvs; cases hvs
    | some v =>
      rw [hv] at hvs
      cases hrest : dvaluesOf n h rest with
      | none => rw [hrest] at hvs; cases hvs
      | some vs2 =>
        rw [hrest] at hvs
        rw [hone kv.2 v hv, ih vs2 hrest]
        exact hvs

/-- Fuel monotonicity of `valueOf`. -/
lemma valueOf_mono : ∀ (n : Nat) (h : Heap) (a : Addr) (v : PyVal),
    valueOf n h a = some v → valueOf (n + 1) h a = some v := by
  intro n
  induction n with
  | zero => intro h a v hv; simp at hv
  | succ n ih =>
    intro h a v hv
    rw [valueOf_succ] at hv ⊢
    cases ho : heapGet h a with
    | none => rw [ho] at hv; cases hv
    | some o =>
      rw [ho] at hv
      cases o with
      | prim w => exact hv
      | hlist es =>
        dsimp only at hv ⊢
        cases hvs : valuesOf n h es with
        | none => rw [hvs] at hv; cases hv
        | some vs =>
          rw [hvs] at hv
          rw [valuesOf_mono_of (fun a v => ih h a v) es vs hvs]
          exact hv
      | hdict kvs =>
        dsimp only at hv ⊢
        cases hvs : dvaluesOf n h kvs with
        | none => rw [hvs] at hv; cases hv
        | some vs =>
          rw [hvs] at hv
          rw [dvaluesOf_mono_of (fun a v => ih h a v) kvs vs hvs]
          exact hv

lemma valueOf_mono_le {n m : Nat} (hnm : n ≤ m) {h : Heap} {a : Addr}
    {v : PyVal} (hv : valueOf n h a = some v) : valueOf m h a = some v := by
  induction m with
  | zero =>
    have h0 : n = 0 := Nat.le_zero.mp hnm
    subst h0
    exact hv
  | succ m ih =>
    rcases Nat.lt_or_ge n (m + 1) with hlt | hge
    · exact valueOf_mono m h a v (ih (Nat.lt_succ_iff.mp hlt))
    · have heq : n = m + 1 := le_antisymm hnm hge
      subst heq
      exact hv

lemma valuesOf_mono_le {n m : Nat} (hnm : n ≤ m) {h : Heap}
    {l : List Addr} {vs : List PyVal} (hv : valuesOf n h l = some vs) :
    valuesOf m h l = some vs := by
  induction l generalizing vs with
  | nil => simp at hv; simp [hv]
  | cons e rest ih =>
    rw [valuesOf_cons] at hv ⊢
    cases he : valueOf n h e with
    | none => rw [he] at hv; cases hv
    | some v =>
      rw [he] at hv
      cases hrest : valuesOf n h rest with
      | none => rw [hrest] at hv; cases hv
      | some vs2 =>
        rw [hrest] at hv
        rw [valueOf_mono_le hnm he, ih hrest]
        exact hv

lemma heapGet_cons (h : Heap) (x : Addr) (o : HObj) (a : Addr) :
    heapGet ((x, o) :: h) a = if x = a then some o else heapGet h a := by
  by_cases hx : x = a <;> simp [heapGet, List.find?, hx]

lemma allocSt_agree (st : HState) (o : HObj) :
    AgreeBelow st.next (allocSt st o).1.heap st.heap := by
  intro b hb
  exact heapGet_set_ne _ _ _ _ (Nat.ne_of_lt hb)

lemma allocSt_get (st : HState) (o : HObj) :
    heapGet (allocSt st o).1.heap st.next = some o :=
  heapGet_set_self _ _ _

lemma WF_alloc {st : HState} (hwf : WF st) {o : HObj}
    (hrefs : ∀ b ∈ objRefs o, b < st.next) : WF (allocSt st o).1 := by
  intro a o' ha
  rw [show (allocSt st o).1.heap = (st.next, o) :: st.heap from rfl,
    heapGet_cons] at ha
  by_cases hx : st.next = a
  · rw [if_pos hx] at ha
    cases ha
    refine ⟨by simp [allocSt, ← hx], ?_⟩
    intro b hb
    exact lt_trans (hrefs b hb) (by simp [allocSt])
  · rw [if_neg hx] at ha
    obtain ⟨h1, h2⟩ := hwf a o' ha
    exact ⟨lt_trans h1 (by simp [allocSt]),
      fun b hb => lt_trans (h2 b hb) (by simp [allocSt])⟩

mutual

/-- `copy.deepcopy`: recursively copy the object graph into fresh
addresses (memo-free; the store's data is tree-shaped). -/
def deepcopy (n : Nat) (st : HState) (a : Addr) :
    Option (HState × Addr) :=
  match n with
  | 0 => Option.none
  | n + 1 =>
    match heapGet st.heap a with
    | some (.prim v) => some (allocSt st (.prim v))
    | some (.hlist es) =>
      match deepcopyList n st es with
      | some (st1, es') => some (allocSt st1 (.hlist es'))
      | Option.none => Option.none
    | some (.hdict kvs) =>
      match deepcopyDict n st kvs with
      | some (st1, kvs') => some (allocSt st1 (.hdict kvs'))
      | Option.none => Option.none
    | Option.none => Option.none
termination_by (n, 0)

def deepcopyList (n : Nat) (st : HState) (l : List Addr) :
    Option (HState × List Addr) :=
  match l with
  | [] => some (st, [])
  | e :: rest =>
    match deepcopy n st e with
    | some (st1, e') =>
      match deepcopyList n st1 rest with
      | some (st2, es') => some (st2, e' :: es')
      | Option.none => Option.none
    | Option.none => Option.none
termination_by (n, l.length + 1)

def deepcopyDict (n : Nat) (st : HState) (l : List (String × Addr)) :
    Option (HState × List (String × Addr)) :=
  match l with
  | [] => some (st, [])
  | kv :: rest =>
    match deepcopy n st kv.2 with
    | some (st1, a') =>
      match deepcopyDict n st1 rest with
      | some (st2, kvs') => some (st2, (kv.1, a') :: kvs')
      | Option.none => Option.none
    | Option.none => Option.none
termination_by (n, l.length + 1)

end

@[simp] lemma deepcopy_zero (st : HState) (a : Addr) :
    deepcopy 0 st a = Option.none := by rw [deepcopy]

lemma deepcopy_succ (n : Nat) (st : HState) (a : Addr) :
    deepcopy (n + 1) st a =
      match heapGet st.heap a with
      | some (.prim v) => some (allocSt st (.prim v))
      | some (.hlist es) =>
        match deepcopyList n st es with
        | some (st1, es') => some (allocSt st1 (.hlist es'))
        | Option.none => Option.none
      | some (.hdict kvs) =>
        match deepcopyDict n st kvs with
        | some (st1, kvs') => some (allocSt st1 (.hdict kvs'))
        | Option.none => Option.none
      | Option.none => Option.none := by rw [deepcopy]

@[simp] lemma deepcopyList_nil (n : Nat) (st : HState) :
    deepcopyList n st [] = some (st, []) := by rw [deepcopyList]

lemma deepcopyList_cons (n : Nat) (st : HState) (e : Addr)
    (rest : List Addr) :
    deepcopyList n st (e :: rest) =
      match deepcopy n st e with
      | some (st1, e') =>
        match deepcopyList n st1 rest with
        | some (st2, es') => some (st2, e' :: es')
        | Option.none => Option.none
      | Option.none => Option.none := by rw [deepcopyList]

@[simp] lemma deepcopyDict_nil (n : Nat) (st : HState) :
    deepcopyDict n st [] = some (st, []) := by rw [deepcopyDict]

lemma deepcopyDict_cons (n : Nat) (st : HState) (kv : String × Addr)
    (rest : List (String × Addr)) :
    deepcopyDict n st (kv :: rest) =
      match deepcopy n st kv.2 with
      | some (st1, a') =>
        match deepcopyDict n st1 rest with
        | some (st2, kvs') => some (st2, (kv.1, a') :: kvs')
        | Option.none => Option.none
      | Option.none => Option.none := by rw [deepcopyDict]

/-- Specification of `deepcopy`: fresh allocations only, old heap
preserved, copy reads back to the same value as the source. -/
def DeepcopySpecP (n : Nat) : Prop :=
  ∀ (st : HState) (a : Addr) (st' : HState) (a' : Addr), WF st →
    deepcopy n st a = some (st', a') →
    st.next ≤ st'.next ∧ WF st' ∧ AgreeBelow st.next st'.heap st.heap ∧
    a' < st'.next ∧
    ∃ v, valueOf n st.heap a = some v ∧ valueOf n st'.heap a' = some v

def DeepcopySpecQ (n : Nat) : Prop :=
  ∀ (st : HState) (l : List Addr) (st2 : HState) (l' : List Addr), WF st →
    (∀ b ∈ l, b < st.next) →
    deepcopyList n st l = some (st2, l') →
    st.next ≤ st2.next ∧ WF st2 ∧ AgreeBelow st.next st2.heap st.heap ∧
    (∀ e ∈ l', e < st2.next) ∧
    ∃ vs, valuesOf n st.heap l = some vs ∧ valuesOf n st2.heap l' = some vs

def DeepcopySpecR (n : Nat) : Prop :=
  ∀ (st : HState) (l : List (String × Addr)) (st2 : HState)
    (l' : List (String × Addr)), WF st →
    (∀ kv ∈ l, kv.2 < st.next) →
    deepcopyDict n st l = some (st2, l') →
    st.next ≤ st2.next ∧ WF st2 ∧ AgreeBelow st.next st2.heap st.heap ∧
    (∀ kv ∈ l', kv.2 < st2.next) ∧
    ∃ vs, dvaluesOf n st.heap l = some vs ∧ dvaluesOf n st2.heap l' = some vs

lemma deepcopyList_spec_of (n : Nat) (hP : DeepcopySpecP n) :
    DeepcopySpecQ n := by
  intro st l
  induction l generalizing st with
  | nil =>
    intro st2 l' hwf _ hdc
    rw [deepcopyList_nil] at hdc
    simp only [Option.some.injEq, Prod.mk.injEq] at hdc
    obtain ⟨rfl, rfl⟩ := hdc
    exact ⟨le_refl _, hwf, fun b _ => rfl, by simp, [], by simp, by simp⟩
  | cons e rest ih =>
    intro st2 l' hwf hb hdc
    rw [deepcopyList_cons] at hdc
    cases hdc1 : deepcopy n st e with
    | none => rw [hdc1] at hdc; cases hdc
    | some p =>
      obtain ⟨st1, e'⟩ := p
      rw [hdc1] at hdc
      dsimp only at hdc
      cases hdc2 : deepcopyList n st1 rest with
      | none => rw [hdc2] at hdc; cases hdc
      | some q =>
        obtain ⟨st2x, es'⟩ := q
        rw [hdc2] at hdc
        simp only [Option.some.injEq, Prod.mk.injEq] at hdc
        obtain ⟨rfl, rfl⟩ := hdc
        obtain ⟨hn1, hwf1, hag1, he', v, hvsrc, hvcpy⟩ :=
          hP st e st1 e' hwf hdc1
        have hbrest : ∀ b ∈ rest, b < st1.next :=
          fun b hbm => lt_of_lt_of_le (hb b (by simp [hbm])) hn1
        obtain ⟨hn2, hwf2, hag2, hes', vs, hvs1, hvs2⟩ :=
          ih st1 st2x es' hwf1 hbrest hdc2
        have hvsrest : valuesOf n st.heap rest = some vs := by
          rw [← hvs1]
          exact (valuesOf_congr_of
            (fun b hbm => valueOf_agree n st.next st1.heap st.heap hag1
              hwf.closedBelow b hbm) rest
            (fun b hbm => hb b (by simp [hbm]))).symm
        have hvcpy2 : valueOf n st2x.heap e' = some v := by
          rw [valueOf_agree n st1.next st2x.heap st1.heap hag2
            hwf1.closedBelow e' he']
          exact hvcpy
        refine ⟨le_trans hn1 hn2, hwf2, (hag2.mono hn1).trans hag1, ?_,
          v :: vs, ?_, ?_⟩
        · intro x hx
          rcases List.mem_cons.mp hx with rfl | hx2
          · exact lt_of_lt_of_le he' hn2
          · exact hes' x hx2
        · rw [valuesOf_cons, hb e (by simp) |> fun _ => hvsrc]
          rw [hvsrest]
        · rw [valuesOf_cons, hvcpy2, hvs2]

lemma deepcopyDict_spec_of (n : Nat) (hP : DeepcopySpecP n) :
    DeepcopySpecR n := by
  intro st l
  induction l generalizing st with
  | nil =>
    intro st2 l' hwf _ hdc
    rw [deepcopyDict_nil] at hdc
    simp only [Option.some.injEq, Prod.mk.injEq] at hdc
    obtain ⟨rfl, rfl⟩ := hdc
    exact ⟨le_refl _, hwf, fun b _ => rfl, by simp, [], by simp, by simp⟩
  | cons kv rest ih =>
    intro st2 l' hwf hb hdc
    rw [deepcopyDict_cons] at hdc
    cases hdc1 : deepcopy n st kv.2 with
    | none => rw [hdc1] at hdc; cases hdc
    | some p =>
      obtain ⟨st1, a'⟩ := p
      rw [hdc1] at hdc
      dsimp only at hdc
      cases hdc2 : deepcopyDict n st1 rest with
      | none => rw [hdc2] at hdc; cases hdc
      | some q =>
        obtain ⟨st2x, kvs'⟩ := q
        rw [hdc2] at hdc
        simp only [Option.some.injEq, Prod.mk.injEq] at hdc
        obtain ⟨rfl, rfl⟩ := hdc
        obtain ⟨hn1, hwf1, hag1, ha', v, hvsrc, hvcpy⟩ :=
          hP st kv.2 st1 a' hwf hdc1
        have hbrest : ∀ b ∈ rest, b.2 < st1.next :=
          fun b hbm => lt_of_lt_of_le (hb b (by simp [hbm])) hn1
        obtain ⟨hn2, hwf2, hag2, hkvs', vs, hvs1, hvs2⟩ :=
          ih st1 st2x kvs' hwf1 hbrest hdc2
        have hvsrest : dvaluesOf n st.heap rest = some vs := by
          rw [← hvs1]
          exact (dvaluesOf_congr_of
            (fun b hbm => valueOf_agree n st.next st1.heap st.heap hag1
              hwf.closedBelow b hbm) rest
            (fun b hbm => hb b (by simp [hbm]))).symm
        have hvcpy2 : valueOf n st2x.heap a' = some v := by
          rw [valueOf_agree n st1.next st2x.heap st1.heap hag2
            hwf1.closedBelow a' ha']
          exact hvcpy
        refine ⟨le_trans hn1 hn2, hwf2, (hag2.mono hn1).trans hag1, ?_,
          (kv.1, v) :: vs, ?_, ?_⟩
        · intro x hx
          rcases List.mem_cons.mp hx with rfl | hx2
          · exact lt_of_lt_of_le ha' hn2
          · exact hkvs' x hx2
        · rw [dvaluesOf_cons, hvsrc, hvsrest]
        · rw [dvaluesOf_cons, hvcpy2, hvs2]

lemma deepcopy_spec : ∀ n : Nat, DeepcopySpecP n := by
  intro n
  induction n with
  | zero =>
    intro st a st' a' _ hdc
    rw [deepcopy_zero] at hdc
    cases hdc
  | succ n ihn =>
    intro st a st' a' hwf hdc
    rw [deepcopy_succ] at hdc
    cases ho : heapGet st.heap a with
    | none => rw [ho] at hdc; cases hdc
    | some o =>
      rw [ho] at hdc
      cases o with
      | prim v =>
        dsimp only at hdc
        injection hdc with h
        have h1 : st' = (allocSt st (.prim v)).1 := (congrArg Prod.fst h).symm
        have h2 : a' = (allocSt st (.prim v)).2 := (congrArg Prod.snd h).symm
        subst h1
        subst h2
        refine ⟨by simp [allocSt], WF_alloc hwf (by simp [objRefs]),
          allocSt_agree st _, by simp [allocSt], v, ?_, ?_⟩
        · rw [valueOf_succ, ho]
        · rw [valueOf_succ]
          rw [show (allocSt st (.prim v)).2 = st.next from rfl, allocSt_get]
      | hlist es =>
        dsimp only at hdc
        cases hdl : deepcopyList n st es with
        | none => rw [hdl] at hdc; cases hdc
        | some p =>
          obtain ⟨st1, es'⟩ := p
          rw [hdl] at hdc
          injection hdc with h
          have h1 : st' = (allocSt st1 (.hlist es')).1 := (congrArg Prod.fst h).symm
          have h2 : a' = (allocSt st1 (.hlist es')).2 := (congrArg Prod.snd h).symm
          subst h1
          subst h2
          have hrefs : ∀ b ∈ es, b < st.next := by
            simpa [objRefs] using (hwf _ _ ho).2
          obtain ⟨hn1, hwf1, hag1, hes', vs, hsrc, hcpy⟩ :=
            deepcopyList_spec_of n ihn st es st1 es' hwf hrefs hdl
          refine ⟨le_trans hn1 (by simp [allocSt]),
            WF_alloc hwf1 (by simpa [objRefs] using hes'),
            ((allocSt_agree st1 _).mono hn1).trans hag1,
            by simp [allocSt], .list vs, ?_, ?_⟩
          · rw [valueOf_succ, ho]
            dsimp only
            rw [hsrc]
            rfl
          · rw [valueOf_succ]
            rw [show (allocSt st1 (.hlist es')).2 = st1.next from rfl,
              allocSt_get]
            dsimp only
            rw [valuesOf_congr_of
              (fun b hbm => valueOf_agree n st1.next
                (allocSt st1 (.hlist es')).1.heap st1.heap
                (allocSt_agree st1 _) hwf1.closedBelow b hbm) es' hes']
            rw [hcpy]
            rfl
      | hdict kvs =>
        dsimp only at hdc
        cases hdl : deepcopyDict n st kvs with
        | none => rw [hdl] at hdc; cases hdc
        | some p =>
          obtain ⟨st1, kvs'⟩ := p
          rw [hdl] at hdc
          injection hdc with h
          have h1 : st' = (allocSt st1 (.hdict kvs')).1 := (congrArg Prod.fst h).symm
          have h2 : a' = (allocSt st1 (.hdict kvs')).2 := (congrArg Prod.snd h).symm
          subst h1
          subst h2
          have hrefs : ∀ kv ∈ kvs, kv.2 < st.next := by
            intro kv hkv
            refine (hwf _ _ ho).2 kv.2 ?_
            simp only [objRefs, List.mem_map]
            exact ⟨kv, hkv, rfl⟩
          obtain ⟨hn1, hwf1, hag1, hkvs', vs, hsrc, hcpy⟩ :=
            deepcopyDict_spec_of n ihn st kvs st1 kvs' hwf hrefs hdl
          have hrefs' : ∀ b ∈ objRefs (.hdict kvs'), b < st1.next := by
            intro b hbm
            simp only [objRefs, List.mem_map] at hbm
            obtain ⟨kv, hkv, rfl⟩ := hbm
            exact hkvs' kv hkv
          refine ⟨le_trans hn1 (by simp [allocSt]),
            WF_alloc hwf1 hrefs',
            ((allocSt_agree st1 _).mono hn1).trans hag1,
            by simp [allocSt], .dict vs, ?_, ?_⟩
          · rw [valueOf_succ, ho]
            dsimp only
            rw [hsrc]
            rfl
          · rw [valueOf_succ]
            rw [show (allocSt st1 (.hdict kvs')).2 = st1.next from rfl,
              allocSt_get]
            dsimp only
            rw [dvaluesOf_congr_of
              (fun b hbm => valueOf_agree n st1.next
                (allocSt st1 (.hdict kvs')).1.heap st1.heap
                (allocSt_agree st1 _) hwf1.closedBelow b hbm) kvs' hkvs']
            rw [hcpy]
            rfl

lemma valueOf_some_addr_lt {st : HState} (hwf : WF st) {n : Nat} {a : Addr}
    {v : PyVal} (hv : valueOf n st.heap a = some v) : a < st.next := by
  cases n with
  | zero => simp at hv
  | succ n =>
    rw [valueOf_succ] at hv
    cases ho : heapGet st.heap a with
    | none => rw [ho] at hv; cases hv
    | some o => exact (hwf a o ho).1

/-- `deepcopy` succeeds wherever `valueOf` does (same fuel). -/
lemma deepcopy_total : ∀ (n : Nat) (st : HState) (a : Addr) (v : PyVal),
    WF st → valueOf n st.heap a = some v →
    ∃ r, deepcopy n st a = some r := by
  intro n
  induction n with
  | zero => intro st a v _ hv; simp at hv
  | succ n ihn =>
    have listTotal : ∀ (st : HState) (l : List Addr) (vs : List PyVal),
        WF st → (∀ b ∈ l, b < st.next) → valuesOf n st.heap l = some vs →
        ∃ r, deepcopyList n st l = some r := by
      intro st l
      induction l generalizing st with
      | nil => intro vs _ _ _; exact ⟨(st, []), by simp⟩
      | cons e rest ih =>
        intro vs hwf hb hvs
        rw [valuesOf_cons] at hvs
        cases hv : valueOf n st.heap e with
        | none => rw [hv] at hvs; cases hvs
        | some v =>
          rw [hv] at hvs
          cases hvr : valuesOf n st.heap rest with
          | none => rw [hvr] at hvs; cases hvs
          | some vsr =>
            obtain ⟨⟨st1, e'⟩, hdc1⟩ := ihn st e v hwf hv
            obtain ⟨hn1, hwf1, hag1, _, _⟩ :=
              deepcopy_spec n st e st1 e' hwf hdc1
            have hvr1 : valuesOf n st1.heap rest = some vsr := by
              rw [valuesOf_congr_of
                (fun b hbm => valueOf_agree n st.next st1.heap st.heap hag1
                  hwf.closedBelow b hbm) rest
                (fun b hbm => hb b (by simp [hbm]))]
              exact hvr
            obtain ⟨⟨st2, es'⟩, hdc2⟩ := ih st1 vsr hwf1
              (fun b hbm => lt_of_lt_of_le (hb b (by simp [hbm])) hn1) hvr1
            exact ⟨(st2, e' :: es'),
              by rw [deepcopyList_cons, hdc1]; dsimp only; rw [hdc2]⟩
    have dictTotal : ∀ (st : HState) (l : List (String × Addr))
        (vs : List (String × PyVal)),
        WF st → (∀ kv ∈ l, kv.2 < st.next) → dvaluesOf n st.heap l = some vs →
        ∃ r, deepcopyDict n st l = some r := by
      intro st l
      induction l generalizing st with
      | nil => intro vs _ _ _; exact ⟨(st, []), by simp⟩
      | cons kv rest ih =>
        intro vs hwf hb hvs
        rw [dvaluesOf_cons] at hvs
        cases hv : valueOf n st.heap kv.2 with
        | none => rw [hv] at hvs; cases hvs
        | some v =>
          rw [hv] at hvs
          cases hvr : dvaluesOf n st.heap rest with
          | none => rw [hvr] at hvs; cases hvs
          | some vsr =>
            obtain ⟨⟨st1, a'⟩, hdc1⟩ := ihn st kv.2 v hwf hv
            obtain ⟨hn1, hwf1, hag1, _, _⟩ :=
              deepcopy_spec n st kv.2 st1 a' hwf hdc1
            have hvr1 : dvaluesOf n st1.heap rest = some vsr := by
              rw [dvaluesOf_congr_of
                (fun b hbm => valueOf_agree n st.next st1.heap st.heap hag1
                  hwf.closedBelow b hbm) rest
                (fun b hbm => hb b (by simp [hbm]))]
              exact hvr
            obtain ⟨⟨st2, kvs'⟩, hdc2⟩ := ih st1 vsr hwf1
              (fun b hbm => lt_of_lt_of_le (hb b (by simp [hbm])) hn1) hvr1
            exact ⟨(st2, (kv.1, a') :: kvs'),
              by rw [deepcopyDict_cons, hdc1]; dsimp only; rw [hdc2]⟩
    intro st a v hwf hv
    rw [valueOf_succ] at hv
    cases ho : heapGet st.heap a with
    | none => rw [ho] at hv; cases hv
    | some o =>
      rw [ho] at hv
      cases o with
      | prim w =>
        exact ⟨allocSt st (.prim w), by rw [deepcopy_succ, ho]⟩
      | hlist es =>
        dsimp only at hv
        cases hvs : valuesOf n st.heap es with
        | none => rw [hvs] at hv; cases hv
        | some vs =>
          have hrefs : ∀ b ∈ es, b < st.next := by
            simpa [objRefs] using (hwf _ _ ho).2
          obtain ⟨⟨st1, es'⟩, hdl⟩ := listTotal st es vs hwf hrefs hvs
          exact ⟨allocSt st1 (.hlist es'),
            by rw [deepcopy_succ, ho]; dsimp only; rw [hdl]⟩
      | hdict kvs =>
        dsimp only at hv
        cases hvs : dvaluesOf n st.heap kvs with
        | none => rw [hvs] at hv; cases hv
        | some vs =>
          have hrefs : ∀ kv ∈ kvs, kv.2 < st.next := by
            intro kv hkv
            refine (hwf _ _ ho).2 kv.2 ?_
            simp only [objRefs, List.mem_map]
            exact ⟨kv, hkv, rfl⟩
          obtain ⟨⟨st1, kvs'⟩, hdl⟩ := dictTotal st kvs vs hwf hrefs hvs
          exact ⟨allocSt st1 (.hdict kvs'),
            by rw [deepcopy_succ, ho]; dsimp only; rw [hdl]⟩

/-- The store object's attributes: addresses of `_device_info`,
`_state`, `_metadata`, `_history`, plus `_history_max`. -/
structure StoreH where
  device : Addr
  state : Addr
  metadata : Addr
  history : Addr
  historyMax : Nat

/-- `self._history.get(key, [])[-max:]`: look the key up in the history
dict; a missing key slices the fresh default `[]`; a present key must
be a list, whose last `max` element addresses are kept (a Python slice
copies the list object but shares the elements). -/
def historySlice (h : Heap) (histA : Addr) (key : String) (maxN : Nat) :
    Option (List Addr) :=
  match heapGet h histA with
  | some (.hdict kvs) =>
    match (kvs.find? (fun e => e.1 = key)).map (·.2) with
    | some la =>
      match heapGet h la with
      | some (.hlist es) => some (es.drop (es.length - maxN))
      | _ => Option.none
    | Option.none => some []
  | _ => Option.none

/-- The allocation tail of `snapshot()`: the two sliced history lists,
the history dict, the `snapshot_time` string, and the top-level dict. -/
def snapshotTail (st3 : HState) (dA sA mA : Addr)
    (cpuEs memEs : List Addr) (t : String) : HState × Addr :=
  let p1 := allocSt st3 (.hlist cpuEs)
  let p2 := allocSt p1.1 (.hlist memEs)
  let p3 := allocSt p2.1 (.hdict [("cpu", p1.2), ("memory", p2.2)])
  let p4 := allocSt p3.1 (.prim (.str t))
  allocSt p4.1
    (.hdict [("device", dA), ("collections", sA), ("metadata", mA),
      ("history", p3.2), ("snapshot_time", p4.2)])

/-- `DeviceStateStore.snapshot()`: deep copies of `_device_info`,
`_state` and `_metadata`; *sliced* (element-sharing) copies of the two
history rings; fresh containers for the history dict, the
`snapshot_time` string, and the top-level dict. -/
def snapshotRun (n : Nat) (st : HState) (store : StoreH) (t : String) :
    Option (HState × Addr) :=
  match deepcopy n st store.device with
  | Option.none => Option.none
  | some (st1, dA) =>
    match deepcopy n st1 store.state with
    | Option.none => Option.none
    | some (st2, sA) =>
      match deepcopy n st2 store.metadata with
      | Option.none => Option.none
      | some (st3, mA) =>
        match historySlice st3.heap store.history "cpu" store.historyMax with
        | Option.none => Option.none
        | some cpuEs =>
          match historySlice st3.heap store.history "memory"
              store.historyMax with
          | Option.none => Option.none
          | some memEs =>
            some (snapshotTail st3 dA sA mA cpuEs memEs t)

/-- `historySlice` reads only below `N`. -/
lemma historySlice_congr {N : Addr} {h1 h2 : Heap}
    (hag : AgreeBelow N h1 h2) (hcl : ClosedBelow N h2) {histA : Addr}
    (hlt : histA < N) (key : String) (maxN : Nat) :
    historySlice h1 histA key maxN = historySlice h2 histA key maxN := by
  unfold historySlice
  rw [hag histA hlt]
  cases ho : heapGet h2 histA with
  | none => rfl
  | some o =>
    cases o with
    | prim v => rfl
    | hlist es => rfl
    | hdict kvs =>
      dsimp only
      cases hla : (kvs.find? (fun e => e.1 = key)).map (·.2) with
      | none => rfl
      | some la =>
        have hlaN : la < N := by
          refine hcl histA hlt _ ho la ?_
          simp only [objRefs, List.mem_map]
          obtain ⟨kv, hkv, hkv2⟩ := Option.map_eq_some'.mp hla
          exact ⟨kv, List.mem_of_find?_eq_some hkv, hkv2⟩
        dsimp only
        rw [hag la hlaN]

/-- The element addresses a history slice returns live below `next`. -/
lemma historySlice_bounds {st : HState} (hwf : WF st) {histA : Addr}
    {key : String} {maxN : Nat} {es' : List Addr}
    (h : historySlice st.heap histA key maxN = some es') :
    ∀ b ∈ es', b < st.next := by
  unfold historySlice at h
  cases ho : heapGet st.heap histA with
  | none => rw [ho] at h; cases h
  | some o =>
    rw [ho] at h
    cases o with
    | prim v => cases h
    | hlist es => cases h
    | hdict kvs =>
      dsimp only at h
      cases hla : (kvs.find? (fun e => e.1 = key)).map (·.2) with
      | none =>
        rw [hla] at h
        simp only [Option.some.injEq] at h
        subst h
        simp
      | some la =>
        rw [hla] at h
        dsimp only at h
        cases ho2 : heapGet st.heap la with
        | none => rw [ho2] at h; cases h
        | some o2 =>
          rw [ho2] at h
          cases o2 with
          | prim v => cases h
          | hdict kvs2 => cases h
          | hlist es =>
            simp only [Option.some.injEq] at h
            subst h
            intro b hb
            have hbes : b ∈ es := List.drop_subset _ _ hb
            have := (hwf _ _ ho2).2 b (by simpa [objRefs] using hbes)
            exact this

/-- Bundled allocation facts. -/
lemma alloc_step {st : HState} (hwf : WF st) (o : HObj)
    (hrefs : ∀ b ∈ objRefs o, b < st.next) :
    WF (allocSt st o).1 ∧
      AgreeBelow st.next (allocSt st o).1.heap st.heap ∧
      heapGet (allocSt st o).1.heap st.next = some o ∧
      (allocSt st o).1.next = st.next + 1 :=
  ⟨WF_alloc hwf hrefs, allocSt_agree st o, allocSt_get st o, rfl⟩

/-- What the allocation tail of `snapshot()` builds: a well-formed
extension whose root reads back to the assembled snapshot dict. -/
lemma snapshotTail_spec (n : Nat) (st3 : HState) (dA sA mA : Addr)
    (cpuEs memEs : List Addr) (t : String) (hwf3 : WF st3)
    (hdA : dA < st3.next) (hsA : sA < st3.next) (hmA : mA < st3.next)
    (hcpuB : ∀ b ∈ cpuEs, b < st3.next)
    (hmemB : ∀ b ∈ memEs, b < st3.next)
    {dv sv mv : PyVal} {cpuVals memVals : List PyVal}
    (hdv : valueOf n st3.heap dA = some dv)
    (hsv : valueOf n st3.heap sA = some sv)
    (hmv : valueOf n st3.heap mA = some mv)
    (hcpuv : valuesOf n st3.heap cpuEs = some cpuVals)
    (hmemv : valuesOf n st3.heap memEs = some memVals) :
    WF (snapshotTail st3 dA sA mA cpuEs memEs t).1 ∧
      st3.next ≤ (snapshotTail st3 dA sA mA cpuEs memEs t).1.next ∧
      AgreeBelow st3.next (snapshotTail st3 dA sA mA cpuEs memEs t).1.heap
        st3.heap ∧
      valueOf (n + 3) (snapshotTail st3 dA sA mA cpuEs memEs t).1.heap
          (snapshotTail st3 dA sA mA cpuEs memEs t).2
        = some (.dict [("device", dv), ("collections", sv),
            ("metadata", mv),
            ("history", .dict [("cpu", .list cpuVals),
              ("memory", .list memVals)]),
            ("snapshot_time", .str t)]) := by
  obtain ⟨hwf1, hag1, hget1, hn1⟩ :=
    alloc_step hwf3 (HObj.hlist cpuEs) (by simpa [objRefs] using hcpuB)
  set A1 : HState := (allocSt st3 (HObj.hlist cpuEs)).1 with hA1def
  have hlt01 : st3.next < A1.next := by rw [hn1]; exact Nat.lt_succ_self st3.next
  obtain ⟨hwf2, hag2, hget2, hn2⟩ :=
    alloc_step hwf1 (HObj.hlist memEs)
      (by
        simp only [objRefs]
        intro b hb
        exact Nat.lt_trans (hmemB b hb) hlt01)
  set A2 : HState := (allocSt A1 (HObj.hlist memEs)).1 with hA2def
  have hlt12 : A1.next < A2.next := by rw [hn2]; exact Nat.lt_succ_self A1.next
  obtain ⟨hwf3', hag3, hget3, hn3⟩ :=
    alloc_step hwf2 (HObj.hdict [("cpu", st3.next), ("memory", A1.next)])
      (by
        simp only [objRefs, List.map_cons, List.map_nil]
        intro b hb
        rcases List.mem_cons.mp hb with rfl | hb2
        · exact Nat.lt_trans hlt01 hlt12
        · rcases List.mem_cons.mp hb2 with rfl | hb3
          · exact hlt12
          · cases hb3)
  set A3 : HState :=
    (allocSt A2 (HObj.hdict [("cpu", st3.next), ("memory", A1.next)])).1
    with hA3def
  have hlt23 : A2.next < A3.next := by rw [hn3]; exact Nat.lt_succ_self A2.next
  obtain ⟨hwf4, hag4, hget4, hn4⟩ :=
    alloc_step hwf3' (HObj.prim (.str t)) (by simp [objRefs])
  set A4 : HState := (allocSt A3 (HObj.prim (.str t))).1 with hA4def
  have hlt34 : A3.next < A4.next := by rw [hn4]; exact Nat.lt_succ_self A3.next
  have hlt04 : st3.next < A4.next :=
    Nat.lt_trans (Nat.lt_trans (Nat.lt_trans hlt01 hlt12) hlt23) hlt34
  have hlt24 : A2.next < A4.next := Nat.lt_trans hlt23 hlt34
  obtain ⟨hwf5, hag5, hget5, hn5⟩ :=
    alloc_step hwf4
      (HObj.hdict [("device", dA), ("collections", sA), ("metadata", mA),
        ("history", A2.next), ("snapshot_time", A3.next)])
      (by
        simp only [objRefs, List.map_cons, List.map_nil]
        intro b hb
        rcases List.mem_cons.mp hb with rfl | hb2
        · exact Nat.lt_trans hdA hlt04
        · rcases List.mem_cons.mp hb2 with rfl | hb3
          · exact Nat.lt_trans hsA hlt04
          · rcases List.mem_cons.mp hb3 with rfl | hb4
            · exact Nat.lt_trans hmA hlt04
            · rcases List.mem_cons.mp hb4 with rfl | hb5
              · exact hlt24
              · rcases List.mem_cons.mp hb5 with rfl | hb6
                · exact hlt34
                · cases hb6)
  set A5 : HState :=
    (allocSt A4 (HObj.hdict [("device", dA), ("collections", sA),
      ("metadata", mA), ("history", A2.next),
      ("snapshot_time", A3.next)])).1 with hA5def
  have hsnap : snapshotTail st3 dA sA mA cpuEs memEs t = (A5, A4.next) := rfl
  rw [hsnap]
  have hle12 : A1.next ≤ A2.next := Nat.le_of_lt hlt12
  have hle23 : A2.next ≤ A3.next := Nat.le_of_lt hlt23
  have hle34 : A3.next ≤ A4.next := Nat.le_of_lt hlt34
  have hle01 : st3.next ≤ A1.next := Nat.le_of_lt hlt01
  have hle24 : A2.next ≤ A4.next := Nat.le_trans hle23 hle34
  have hle14 : A1.next ≤ A4.next := Nat.le_trans hle12 hle24
  have hle13 : A1.next ≤ A3.next := Nat.le_trans hle12 hle23
  have hag5_4 : AgreeBelow A4.next A5.heap A4.heap := hag5
  have hag5_3 : AgreeBelow A3.next A5.heap A3.heap :=
    (hag5.mono hle34).trans hag4
  have hag5_2 : AgreeBelow A2.next A5.heap A2.heap :=
    ((hag5.mono hle24).trans (hag4.mono hle23)).trans hag3
  have hag5_1 : AgreeBelow A1.next A5.heap A1.heap :=
    (((hag5.mono hle14).trans (hag4.mono hle13)).trans
      (hag3.mono hle12)).trans hag2
  have hag5_0 : AgreeBelow st3.next A5.heap st3.heap :=
    (hag5_1.mono hle01).trans hag1
  have hvalbase : ∀ (a : Addr) (v : PyVal), a < st3.next →
      valueOf n st3.heap a = some v → valueOf (n + 2) A5.heap a = some v := by
    intro a v ha hv
    have hv5 : valueOf n A5.heap a = some v := by
      rw [valueOf_agree n st3.next A5.heap st3.heap hag5_0
        hwf3.closedBelow a ha]
      exact hv
    exact valueOf_mono_le (Nat.le_add_right n 2) hv5
  have hcpuV5 : valuesOf n A5.heap cpuEs = some cpuVals := by
    rw [valuesOf_congr_of
      (fun b hb => valueOf_agree n st3.next A5.heap st3.heap hag5_0
        hwf3.closedBelow b hb) cpuEs hcpuB]
    exact hcpuv
  have hmemV5 : valuesOf n A5.heap memEs = some memVals := by
    rw [valuesOf_congr_of
      (fun b hb => valueOf_agree n st3.next A5.heap st3.heap hag5_0
        hwf3.closedBelow b hb) memEs hmemB]
    exact hmemv
  have hcAF : valueOf (n + 1) A5.heap st3.next = some (.list cpuVals) := by
    rw [valueOf_succ, hag5_1 st3.next hlt01, hget1]
    dsimp only
    rw [hcpuV5]
    rfl
  have hmAF : valueOf (n + 1) A5.heap A1.next = some (.list memVals) := by
    rw [valueOf_succ, hag5_2 A1.next hlt12, hget2]
    dsimp only
    rw [hmemV5]
    rfl
  have hhF : valueOf (n + 2) A5.heap A2.next
      = some (.dict [("cpu", .list cpuVals), ("memory", .list memVals)]) := by
    rw [valueOf_succ, hag5_3 A2.next hlt23, hget3]
    dsimp only
    rw [dvaluesOf_cons]
    dsimp only
    rw [hcAF, dvaluesOf_cons]
    dsimp only
    rw [hmAF, dvaluesOf_nil]
    rfl
  have htF : valueOf (n + 2) A5.heap A3.next = some (.str t) := by
    rw [valueOf_succ, hag5_4 A3.next hlt34, hget4]
  have hdvF : valueOf (n + 2) A5.heap dA = some dv := hvalbase dA dv hdA hdv
  have hsvF : valueOf (n + 2) A5.heap sA = some sv := hvalbase sA sv hsA hsv
  have hmvF : valueOf (n + 2) A5.heap mA = some mv := hvalbase mA mv hmA hmv
  refine ⟨hwf5, ?_, hag5_0, ?_⟩
  · rw [hn5]
    exact Nat.le_trans (Nat.le_of_lt hlt04) (Nat.le_add_right A4.next 1)
  · rw [show (n + 3) = (n + 2) + 1 from rfl, valueOf_succ, hget5]
    dsimp only
    rw [dvaluesOf_cons]
    dsimp only
    rw [hdvF, dvaluesOf_cons]
    dsimp only
    rw [hsvF, dvaluesOf_cons]
    dsimp only
    rw [hmvF, dvaluesOf_cons]
    dsimp only
    rw [hhF, dvaluesOf_cons]
    dsimp only
    rw [htF, dvaluesOf_nil]
    rfl

/-- Overwriting an in-bounds address with a bounded object keeps the
state well-formed. -/
lemma WF_set {st : HState} (hwf : WF st) {b : Addr} (hb : b < st.next)
    {o' : HObj} (hrefs : ∀ c ∈ objRefs o', c < st.next) :
    WF ⟨heapSet st.heap b o', st.next⟩ := by
  intro a o ho
  dsimp only at ho ⊢
  by_cases hab : a = b
  · subst hab
    rw [heapGet_set_self] at ho
    injection ho with h
    subst h
    exact ⟨hb, hrefs⟩
  · rw [heapGet_set_ne st.heap a b o' hab] at ho
    exact hwf a o ho

/-- Mutation at or above `N` preserves the heap below `N`. -/
lemma agree_set {h : Heap} {N b : Addr} (hb : N ≤ b) (o' : HObj) :
    AgreeBelow N (heapSet h b o') h := fun a ha =>
  heapGet_set_ne h a b o' (Nat.ne_of_lt (lt_of_lt_of_le ha hb))

lemma heapGet_mem {h : Heap} {a : Addr} {o : HObj}
    (hg : heapGet h a = some o) : (a, o) ∈ h := by
  unfold heapGet at hg
  obtain ⟨e, hfind, he2⟩ := Option.map_eq_some'.mp hg
  have hmem := List.mem_of_find?_eq_some hfind
  have h1 : e.1 = a := by simpa using List.find?_some hfind
  obtain ⟨e1, e2⟩ := e
  dsimp only at he2 h1
  subst h1
  subst he2
  exact hmem

/-- A decidable sufficient condition for well-formedness of a literal
heap. -/
lemma WF_of_entries (st : HState)
    (h : ∀ e ∈ st.heap, e.1 < st.next ∧ ∀ b ∈ objRefs e.2, b < st.next) :
    WF st := fun a o ho => h (a, o) (heapGet_mem ho)

/-- Functional characterization of `snapshot()`: it succeeds whenever
the store's attributes read back, extends the heap without touching
existing addresses, and its root reads back to the dict assembled from
the store's current values. -/
lemma snapshot_spec (n : Nat) (st : HState) (store : StoreH) (t : String)
    (hwf : WF st) (hh : store.history < st.next)
    {dv sv mv : PyVal} {cpuEs memEs : List Addr}
    {cpuVals memVals : List PyVal}
    (hdv : valueOf n st.heap store.device = some dv)
    (hsv : valueOf n st.heap store.state = some sv)
    (hmv : valueOf n st.heap store.metadata = some mv)
    (hcpu : historySlice st.heap store.history "cpu" store.historyMax
      = some cpuEs)
    (hmem : historySlice st.heap store.history "memory" store.historyMax
      = some memEs)
    (hcpuv : valuesOf n st.heap cpuEs = some cpuVals)
    (hmemv : valuesOf n st.heap memEs = some memVals) :
    ∃ st' root,
      snapshotRun n st store t = some (st', root) ∧
      WF st' ∧ st.next ≤ st'.next ∧
      AgreeBelow st.next st'.heap st.heap ∧
      valueOf (n + 3) st'.heap root
        = some (.dict [("device", dv), ("collections", sv),
            ("metadata", mv),
            ("history", .dict [("cpu", .list cpuVals),
              ("memory", .list memVals)]),
            ("snapshot_time", .str t)]) := by
  obtain ⟨⟨st1, dA⟩, hdc1⟩ := deepcopy_total n st store.device dv hwf hdv
  obtain ⟨hn1, hwf1, hag1, hdAlt, v1, hv1src, hv1cpy⟩ :=
    deepcopy_spec n st store.device st1 dA hwf hdc1
  have hv1 : dv = v1 := (Option.some.inj (hdv.symm.trans hv1src))
  subst hv1
  have hsv1 : valueOf n st1.heap store.state = some sv := by
    rw [valueOf_agree n st.next st1.heap st.heap hag1 hwf.closedBelow
      store.state (valueOf_some_addr_lt hwf hsv)]
    exact hsv
  obtain ⟨⟨st2, sA⟩, hdc2⟩ := deepcopy_total n st1 store.state sv hwf1 hsv1
  obtain ⟨hn2, hwf2, hag2, hsAlt, v2, hv2src, hv2cpy⟩ :=
    deepcopy_spec n st1 store.state st2 sA hwf1 hdc2
  have hv2 : sv = v2 := (Option.some.inj (hsv1.symm.trans hv2src))
  subst hv2
  have hag20 : AgreeBelow st.next st2.heap st.heap :=
    (hag2.mono hn1).trans hag1
  have hmv2 : valueOf n st2.heap store.metadata = some mv := by
    rw [valueOf_agree n st.next st2.heap st.heap hag20 hwf.closedBelow
      store.metadata (valueOf_some_addr_lt hwf hmv)]
    exact hmv
  obtain ⟨⟨st3, mA⟩, hdc3⟩ := deepcopy_total n st2 store.metadata mv hwf2 hmv2
  obtain ⟨hn3, hwf3, hag3, hmAlt, v3, hv3src, hv3cpy⟩ :=
    deepcopy_spec n st2 store.metadata st3 mA hwf2 hdc3
  have hv3 : mv = v3 := (Option.some.inj (hmv2.symm.trans hv3src))
  subst hv3
  have hag30 : AgreeBelow st.next st3.heap st.heap :=
    (hag3.mono (le_trans hn1 hn2)).trans hag20
  have hag31 : AgreeBelow st1.next st3.heap st1.heap :=
    (hag3.mono hn2).trans hag2
  have hdv3 : valueOf n st3.heap dA = some dv := by
    rw [valueOf_agree n st1.next st3.heap st1.heap hag31 hwf1.closedBelow
      dA hdAlt]
    exact hv1cpy
  have hsv3 : valueOf n st3.heap sA = some sv := by
    rw [valueOf_agree n st2.next st3.heap st2.heap hag3 hwf2.closedBelow
      sA hsAlt]
    exact hv2cpy
  have hmv3 : valueOf n st3.heap mA = some mv := hv3cpy
  have hcpu3 : historySlice st3.heap store.history "cpu" store.historyMax
      = some cpuEs := by
    rw [historySlice_congr hag30 hwf.closedBelow hh "cpu" store.historyMax]
    exact hcpu
  have hmem3 : historySlice st3.heap store.history "memory" store.historyMax
      = some memEs := by
    rw [historySlice_congr hag30 hwf.closedBelow hh "memory" store.historyMax]
    exact hmem
  have hst03 : st.next ≤ st3.next := le_trans hn1 (le_trans hn2 hn3)
  have hcpuB : ∀ b ∈ cpuEs, b < st3.next := fun b hb =>
    lt_of_lt_of_le (historySlice_bounds hwf hcpu b hb) hst03
  have hmemB : ∀ b ∈ memEs, b < st3.next := fun b hb =>
    lt_of_lt_of_le (historySlice_bounds hwf hmem b hb) hst03
  have hcpuv3 : valuesOf n st3.heap cpuEs = some cpuVals := by
    rw [valuesOf_congr_of
      (fun a ha => valueOf_agree n st.next st3.heap st.heap hag30
        hwf.closedBelow a ha) cpuEs (historySlice_bounds hwf hcpu)]
    exact hcpuv
  have hmemv3 : valuesOf n st3.heap memEs = some memVals := by
    rw [valuesOf_congr_of
      (fun a ha => valueOf_agree n st.next st3.heap st.heap hag30
        hwf.closedBelow a ha) memEs (historySlice_bounds hwf hmem)]
    exact hmemv
  have hdA3 : dA < st3.next := lt_of_lt_of_le hdAlt (le_trans hn2 hn3)
  have hsA3 : sA < st3.next := lt_of_lt_of_le hsAlt hn3
  obtain ⟨hwfT, hnT, hagT, hvT⟩ :=
    snapshotTail_spec n st3 dA sA mA cpuEs memEs t hwf3 hdA3 hsA3 hmAlt
      hcpuB hmemB hdv3 hsv3 hmv3 hcpuv3 hmemv3
  refine ⟨(snapshotTail st3 dA sA mA cpuEs memEs t).1,
    (snapshotTail st3 dA sA mA cpuEs memEs t).2, ?_, hwfT,
    le_trans hst03 hnT, (hagT.mono hst03).trans hag30, hvT⟩
  unfold snapshotRun
  rw [hdc1]
  dsimp only
  rw [hdc2]
  dsimp only
  rw [hdc3]
  dsimp only
  rw [hcpu3]
  dsimp only
  rw [hmem3]

/-- C3 (amended): the device, collections and metadata parts of a
snapshot are deep copies and every container the snapshot allocates is
fresh, so mutating any snapshot-allocated address (at or above the
store's pre-snapshot `next`) never changes the value a subsequent
`snapshot()` reads back.  (The history lists, by contrast, share their
entry dicts with the store — see the counterexample.) -/
theorem C3_snapshot_fresh_mutation_invariant
    (n : Nat) (st : HState) (store : StoreH) (t t2 : String)
    (hwf : WF st) (hh : store.history < st.next)
    {dv sv mv : PyVal} {cpuEs memEs : List Addr}
    {cpuVals memVals : List PyVal}
    (hdv : valueOf n st.heap store.device = some dv)
    (hsv : valueOf n st.heap store.state = some sv)
    (hmv : valueOf n st.heap store.metadata = some mv)
    (hcpu : historySlice st.heap store.history "cpu" store.historyMax
      = some cpuEs)
    (hmem : historySlice st.heap store.history "memory" store.historyMax
      = some memEs)
    (hcpuv : valuesOf n st.heap cpuEs = some cpuVals)
    (hmemv : valuesOf n st.heap memEs = some memVals)
    {st1 : HState} {root : Addr}
    (hrun : snapshotRun n st store t = some (st1, root))
    (b : Addr) (hblo : st.next ≤ b) (hbhi : b < st1.next)
    (o' : HObj) (hrefs : ∀ c ∈ objRefs o', c < st1.next) :
    ∃ st2 root2 st2' root2',
      snapshotRun n st1 store t2 = some (st2, root2) ∧
      snapshotRun n ⟨heapSet st1.heap b o', st1.next⟩ store t2
        = some (st2', root2') ∧
      valueOf (n + 3) st2.heap root2
        = some (.dict [("device", dv), ("collections", sv),
            ("metadata", mv),
            ("history", .dict [("cpu", .list cpuVals),
              ("memory", .list memVals)]),
            ("snapshot_time", .str t2)]) ∧
      valueOf (n + 3) st2'.heap root2'
        = some (.dict [("device", dv), ("collections", sv),
            ("metadata", mv),
            ("history", .dict [("cpu", .list cpuVals),
              ("memory", .list memVals)]),
            ("snapshot_time", .str t2)]) := by
  obtain ⟨st1x, rootx, hrunx, hwf1, hn1, hag1, hval1⟩ :=
    snapshot_spec n st store t hwf hh hdv hsv hmv hcpu hmem hcpuv hmemv
  have hpair : (st1x, rootx) = (st1, root) :=
    Option.some.inj (hrunx.symm.trans hrun)
  have hst1 : st1 = st1x := (congrArg Prod.fst hpair).symm
  subst hst1
  have hhb1 : store.history < st1.next := lt_of_lt_of_le hh hn1
  have hdv1 : valueOf n st1.heap store.device = some dv := by
    rw [valueOf_agree n st.next st1.heap st.heap hag1 hwf.closedBelow
      store.device (valueOf_some_addr_lt hwf hdv)]
    exact hdv
  have hsv1 : valueOf n st1.heap store.state = some sv := by
    rw [valueOf_agree n st.next st1.heap st.heap hag1 hwf.closedBelow
      store.state (valueOf_some_addr_lt hwf hsv)]
    exact hsv
  have hmv1 : valueOf n st1.heap store.metadata = some mv := by
    rw [valueOf_agree n st.next st1.heap st.heap hag1 hwf.closedBelow
      store.metadata (valueOf_some_addr_lt hwf hmv)]
    exact hmv
  have hcpu1 : historySlice st1.heap store.history "cpu" store.historyMax
      = some cpuEs := by
    rw [historySlice_congr hag1 hwf.closedBelow hh "cpu" store.historyMax]
    exact hcpu
  have hmem1 : historySlice st1.heap store.history "memory" store.historyMax
      = some memEs := by
    rw [historySlice_congr hag1 hwf.closedBelow hh "memory" store.historyMax]
    exact hmem
  have hcpuv1 : valuesOf n st1.heap cpuEs = some cpuVals := by
    rw [valuesOf_congr_of
      (fun a ha => valueOf_agree n st.next st1.heap st.heap hag1
        hwf.closedBelow a ha) cpuEs (historySlice_bounds hwf hcpu)]
    exact hcpuv
  have hmemv1 : valuesOf n st1.heap memEs = some memVals := by
    rw [valuesOf_congr_of
      (fun a ha => valueOf_agree n st.next st1.heap st.heap hag1
        hwf.closedBelow a ha) memEs (historySlice_bounds hwf hmem)]
    exact hmemv
  obtain ⟨st2, root2, hrun2, _, _, _, hval2⟩ :=
    snapshot_spec n st1 store t2 hwf1 hhb1 hdv1 hsv1 hmv1 hcpu1 hmem1
      hcpuv1 hmemv1
  have hwfM : WF ⟨heapSet st1.heap b o', st1.next⟩ := WF_set hwf1 hbhi hrefs
  have hagM0 : AgreeBelow st.next (heapSet st1.heap b o') st.heap :=
    (agree_set hblo o').trans hag1
  have hdvM : valueOf n (heapSet st1.heap b o') store.device = some dv := by
    rw [valueOf_agree n st.next (heapSet st1.heap b o') st.heap hagM0
      hwf.closedBelow store.device (valueOf_some_addr_lt hwf hdv)]
    exact hdv
  have hsvM : valueOf n (heapSet st1.heap b o') store.state = some sv := by
    rw [valueOf_agree n st.next (heapSet st1.heap b o') st.heap hagM0
      hwf.closedBelow store.state (valueOf_some_addr_lt hwf hsv)]
    exact hsv
  have hmvM : valueOf n (heapSet st1.heap b o') store.metadata
      = some mv := by
    rw [valueOf_agree n st.next (heapSet st1.heap b o') st.heap hagM0
      hwf.closedBelow store.metadata (valueOf_some_addr_lt hwf hmv)]
    exact hmv
  have hcpuM : historySlice (heapSet st1.heap b o') store.history "cpu"
      store.historyMax = some cpuEs := by
    rw [historySlice_congr hagM0 hwf.closedBelow hh "cpu" store.historyMax]
    exact hcpu
  have hmemM : historySlice (heapSet st1.heap b o') store.history "memory"
      store.historyMax = some memEs := by
    rw [historySlice_congr hagM0 hwf.closedBelow hh "memory"
      store.historyMax]
    exact hmem
  have hcpuvM : valuesOf n (heapSet st1.heap b o') cpuEs = some cpuVals := by
    rw [valuesOf_congr_of
      (fun a ha => valueOf_agree n st.next (heapSet st1.heap b o') st.heap
        hagM0 hwf.closedBelow a ha) cpuEs (historySlice_bounds hwf hcpu)]
    exact hcpuv
  have hmemvM : valuesOf n (heapSet st1.heap b o') memEs = some memVals := by
    rw [valuesOf_congr_of
      (fun a ha => valueOf_agree n st.next (heapSet st1.heap b o') st.heap
        hagM0 hwf.closedBelow a ha) memEs (historySlice_bounds hwf hmem)]
    exact hmemv
  obtain ⟨st2', root2', hrun2', _, _, _, hval2'⟩ :=
    snapshot_spec n ⟨heapSet st1.heap b o', st1.next⟩ store t2 hwfM hhb1
      hdvM hsvM hmvM hcpuM hmemM hcpuvM hmemvM
  exact ⟨st2, root2, st2', root2', hrun2, hrun2', hval2, hval2'⟩

/-! Structural (kernel-reducing) twins of the fuel-recursive heap
readers and of `deepcopy`, for evaluating concrete stores. -/

def listValsE (f : Addr → Option PyVal) : List Addr → Option (List PyVal)
  | [] => some []
  | e :: rest =>
    match f e, listValsE f rest with
    | some v, some vs => some (v :: vs)
    | _, _ => Option.none

def dictValsE (f : Addr → Option PyVal) :
    List (String × Addr) → Option (List (String × PyVal))
  | [] => some []
  | kv :: rest =>
    match f kv.2, dictValsE f rest with
    | some v, some vs => some ((kv.1, v) :: vs)
    | _, _ => Option.none

def valueOfE : Nat → Heap → Addr → Option PyVal
  | 0, _, _ => Option.none
  | n + 1, h, a =>
    match heapGet h a with
    | some (.prim v) => some v
    | some (.hlist es) => (listValsE (valueOfE n h) es).map PyVal.list
    | some (.hdict kvs) => (dictValsE (valueOfE n h) kvs).map PyVal.dict
    | Option.none => Option.none

lemma listValsE_eq {n : Nat} {h : Heap}
    (hf : ∀ a, valueOfE n h a = valueOf n h a) :
    ∀ l, listValsE (valueOfE n h) l = valuesOf n h l := by
  intro l
  induction l with
  | nil => simp [listValsE]
  | cons e rest ih =>
    rw [valuesOf_cons, listValsE, hf e, ih]

lemma dictValsE_eq {n : Nat} {h : Heap}
    (hf : ∀ a, valueOfE n h a = valueOf n h a) :
    ∀ l, dictValsE (valueOfE n h) l = dvaluesOf n h l := by
  intro l
  induction l with
  | nil => simp [dictValsE]
  | cons kv rest ih =>
    rw [dvaluesOf_cons, dictValsE, hf kv.2, ih]

lemma valueOfE_eq : ∀ (n : Nat) (h : Heap) (a : Addr),
    valueOfE n h a = valueOf n h a := by
  intro n
  induction n with
  | zero => intro h a; simp [valueOfE]
  | succ n ih =>
    intro h a
    rw [valueOf_succ, valueOfE]
    cases heapGet h a with
    | none => rfl
    | some o =>
      cases o with
      | prim v => rfl
      | hlist es => dsimp only; rw [listValsE_eq (ih h) es]
      | hdict kvs => dsimp only; rw [dictValsE_eq (ih h) kvs]

lemma valuesOfE_eq (n : Nat) (h : Heap) (l : List Addr) :
    listValsE (valueOfE n h) l = valuesOf n h l :=
  listValsE_eq (fun a => valueOfE_eq n h a) l

def listCopyE (f : HState → Addr → Option (HState × Addr)) :
    HState → List Addr → Option (HState × List Addr)
  | st, [] => some (st, [])
  | st, e :: rest =>
    match f st e with
    | some (st1, e') =>
      match listCopyE f st1 rest with
      | some (st2, es') => some (st2, e' :: es')
      | Option.none => Option.none
    | Option.none => Option.none

def dictCopyE (f : HState → Addr → Option (HState × Addr)) :
    HState → List (String × Addr) → Option (HState × List (String × Addr))
  | st, [] => some (st, [])
  | st, kv :: rest =>
    match f st kv.2 with
    | some (st1, a') =>
      match dictCopyE f st1 rest with
      | some (st2, kvs') => some (st2, (kv.1, a') :: kvs')
      | Option.none => Option.none
    | Option.none => Option.none

def deepcopyE : Nat → HState → Addr → Option (HState × Addr)
  | 0, _, _ => Option.none
  | n + 1, st, a =>
    match heapGet st.heap a with
    | some (.prim v) => some (allocSt st (.prim v))
    | some (.hlist es) =>
      match listCopyE (deepcopyE n) st es with
      | some (st1, es') => some (allocSt st1 (.hlist es'))
      | Option.none => Option.none
    | some (.hdict kvs) =>
      match dictCopyE (deepcopyE n) st kvs with
      | some (st1, kvs') => some (allocSt st1 (.hdict kvs'))
      | Option.none => Option.none
    | Option.none => Option.none

lemma listCopyE_eq {n : Nat}
    (hf : ∀ st a, deepcopyE n st a = deepcopy n st a) :
    ∀ (st : HState) (l : List Addr),
      listCopyE (deepcopyE n) st l = deepcopyList n st l := by
  intro st l
  induction l generalizing st with
  | nil => simp [listCopyE]
  | cons e rest ih =>
    rw [deepcopyList_cons, listCopyE, hf st e]
    cases deepcopy n st e with
    | none => rfl
    | some p => dsimp only; rw [ih p.1]

lemma dictCopyE_eq {n : Nat}
    (hf : ∀ st a, deepcopyE n st a = deepcopy n st a) :
    ∀ (st : HState) (l : List (String × Addr)),
      dictCopyE (deepcopyE n) st l = deepcopyDict n st l := by
  intro st l
  induction l generalizing st with
  | nil => simp [dictCopyE]
  | cons kv rest ih =>
    rw [deepcopyDict_cons, dictCopyE, hf st kv.2]
    cases deepcopy n st kv.2 with
    | none => rfl
    | some p => dsimp only; rw [ih p.1]

lemma deepcopyE_eq : ∀ (n : Nat) (st : HState) (a : Addr),
    deepcopyE n st a = deepcopy n st a := by
  intro n
  induction n with
  | zero => intro st a; simp [deepcopyE]
  | succ n ih =>
    intro st a
    rw [deepcopy_succ, deepcopyE]
    cases heapGet st.heap a with
    | none => rfl
    | some o =>
      cases o with
      | prim v => rfl
      | hlist es => dsimp only; rw [listCopyE_eq ih st es]
      | hdict kvs => dsimp only; rw [dictCopyE_eq ih st kvs]

/-- Structural twin of `snapshotRun`. -/
def snapshotRunE (n : Nat) (st : HState) (store : StoreH) (t : String) :
    Option (HState × Addr) :=
  match deepcopyE n st store.device with
  | Option.none => Option.none
  | some (st1, dA) =>
    match deepcopyE n st1 store.state with
    | Option.none => Option.none
    | some (st2, sA) =>
      match deepcopyE n st2 store.metadata with
      | Option.none => Option.none
      | some (st3, mA) =>
        match historySlice st3.heap store.history "cpu" store.historyMax with
        | Option.none => Option.none
        | some cpuEs =>
          match historySlice st3.heap store.history "memory"
              store.historyMax with
          | Option.none => Option.none
          | some memEs =>
            some (snapshotTail st3 dA sA mA cpuEs memEs t)

lemma snapshotRunE_eq (n : Nat) (st : HState) (store : StoreH)
    (t : String) : snapshotRunE n st store t = snapshotRun n st store t := by
  unfold snapshotRunE snapshotRun
  simp only [deepcopyE_eq]

/-- A concrete store: device info `\x7b"hostname": "r1"\x7d` at address 0,
empty `_state` at 2, empty `_metadata` at 3, `_history` at 4 holding one
cpu entry dict (address 6) with a nested `data` dict. -/
def cexHeap : Heap :=
  [(0, .hdict [("hostname", 1)]),
   (1, .prim (.str "r1")),
   (2, .hdict []),
   (3, .hdict []),
   (4, .hdict [("cpu", 5)]),
   (5, .hlist [6]),
   (6, .hdict [("timestamp", 7), ("data", 8)]),
   (7, .prim (.int 100)),
   (8, .hdict [("five_sec", 9)]),
   (9, .prim (.int 5))]

def cexSt : HState := ⟨cexHeap, 10⟩

def cexStore : StoreH := ⟨0, 2, 3, 4, 360⟩

/-- The heap state after `snapshot()` on `cexSt`: nine fresh objects
(addresses 10–18), with the sliced cpu history list at 14 still
pointing at the store's entry dict at address 6. -/
def cexSnapHeap : Heap :=
  [(18, .hdict [("device", 11), ("collections", 12), ("metadata", 13),
      ("history", 16), ("snapshot_time", 17)]),
   (17, .prim (.str "T1")),
   (16, .hdict [("cpu", 14), ("memory", 15)]),
   (15, .hlist []),
   (14, .hlist [6]),
   (13, .hdict []),
   (12, .hdict []),
   (11, .hdict [("hostname", 10)]),
   (10, .prim (.str "r1"))] ++ cexHeap

def cexSnapSt : HState := ⟨cexSnapHeap, 19⟩

/-- The value a second `snapshot()` of the untouched concrete store
reads back. -/
def cexSnapVal : PyVal :=
  .dict [("device", .dict [("hostname", .str "r1")]),
         ("collections", .dict []),
         ("metadata", .dict []),
         ("history", .dict [("cpu", .list [.dict [("timestamp", .int 100),
            ("data", .dict [("five_sec", .int 5)])]]),
            ("memory", .list [])]),
         ("snapshot_time", .str "T2")]

/-- C3 is false as stated: the history lists inside a snapshot share
their entry dicts with the store.  On the concrete store, the first
snapshot's root (address 18) reaches the store's history entry dict at
address 6 (root → history dict 16 → cpu list 14 → 6, an address that
predates the snapshot); mutating that entry dict changes the value the
next `snapshot()` reads back. -/
theorem C3_snapshot_history_aliasing_cex :
    snapshotRun 5 cexSt cexStore "T1" = some (cexSnapSt, 18) ∧
    heapGet cexSnapSt.heap 18
      = some (.hdict [("device", 11), ("collections", 12),
          ("metadata", 13), ("history", 16), ("snapshot_time", 17)]) ∧
    heapGet cexSnapSt.heap 16
      = some (.hdict [("cpu", 14), ("memory", 15)]) ∧
    heapGet cexSnapSt.heap 14 = some (.hlist [6]) ∧
    (6 : Addr) < cexSt.next ∧
    (snapshotRun 5 cexSnapSt cexStore "T2").isSome = true ∧
    (snapshotRun 5 ⟨heapSet cexSnapSt.heap 6
        (HObj.hdict [("timestamp", 7), ("data", 7)]), cexSnapSt.next⟩
      cexStore "T2").isSome = true ∧
    Option.map (fun p => valueOf 8 p.1.heap p.2)
        (snapshotRun 5 cexSnapSt cexStore "T2")
      ≠ Option.map (fun p => valueOf 8 p.1.heap p.2)
        (snapshotRun 5 ⟨heapSet cexSnapSt.heap 6
            (HObj.hdict [("timestamp", 7), ("data", 7)]), cexSnapSt.next⟩
          cexStore "T2") := by
  simp only [← snapshotRunE_eq, ← valueOfE_eq]
  refine ⟨rfl, rfl, rfl, rfl, by decide, rfl, rfl, ?_⟩
  decide

theorem C3_snapshot_fresh_mutation_invariant_witness :
    WF cexSt ∧
    (∃ st2 root2 st2' root2',
      snapshotRun 5 cexSnapSt cexStore "T2" = some (st2, root2) ∧
      snapshotRun 5 ⟨heapSet cexSnapSt.heap 18 (HObj.hdict []),
        cexSnapSt.next⟩ cexStore "T2" = some (st2', root2') ∧
      valueOf 8 st2.heap root2 = some cexSnapVal ∧
      valueOf 8 st2'.heap root2' = some cexSnapVal) :=
  ⟨WF_of_entries cexSt (by decide),
   C3_snapshot_fresh_mutation_invariant 5 cexSt cexStore "T1" "T2"
     (WF_of_entries cexSt (by decide)) (by decide)
     ((valueOfE_eq 5 cexSt.heap 0).symm.trans rfl)
     ((valueOfE_eq 5 cexSt.heap 2).symm.trans rfl)
     ((valueOfE_eq 5 cexSt.heap 3).symm.trans rfl)
     rfl rfl
     ((valuesOfE_eq 5 cexSt.heap [6]).symm.trans rfl)
     ((valuesOfE_eq 5 cexSt.heap []).symm.trans rfl)
     (((snapshotRunE_eq 5 cexSt cexStore "T1").symm.trans rfl :
        snapshotRun 5 cexSt cexStore "T1" = some (cexSnapSt, 18)))
     18 (by decide) (by decide) (HObj.hdict []) (by decide)⟩

end Wirlwind
